import Mathlib

/-!
Verification of the control-plane core of nginx-kubernetes-gateway.

This file gives a shallow embedding, in Lean 4, of the Go sources under
internal/state (backend groups, backend-ref resolution, configuration
building) and internal/nginx/config (upstream, server and split-clients
generation), and proves the testable properties stated in the
specification against that embedding.

Modelling conventions:
- Go slices and maps become Lean lists and association lists; Go map
  mutation m[k] = v becomes an insert-or-replace on the association list.
- Go int32 values become Int; the one place where int32 overflow is
  reachable (the total-weight accumulation in split-clients generation)
  wraps explicitly modulo 2^32.
- Go float64 arithmetic in split-clients generation is modelled exactly:
  fl rounds a rational to the nearest dyadic with a 53-bit significand
  (ties to even) and is applied after every conversion and arithmetic
  operation, math.Floor becomes Int.floor (exact on binary64 values).
  The exponent of fl is unbounded; that agrees with IEEE-754 binary64
  away from the overflow and subnormal thresholds, far beyond every
  value reachable in this code. fmt.Sprintf("%.2f", x) becomes fmt2,
  the correctly rounded (ties to even, as in strconv) multiple of 1/100.
- Go's sort.Slice with a strict-less comparator is modelled by
  List.mergeSort with the corresponding non-strict comparator; the
  theorems proved about sorted output (pairwise order, permutation,
  membership) hold for any sort implementation.
-/

namespace resolver

/-- resolver.Endpoint: an endpoint address/port pair (internal/state/resolver). -/
structure Endpoint where
  Address : String
  Port : Int
  deriving DecidableEq, Repr, Inhabited

end resolver

namespace state

/-- types.NamespacedName (k8s.io/apimachinery): a namespace/name pair. -/
structure NamespacedName where
  Namespace : String
  Name : String
  deriving DecidableEq, Repr, Inhabited

/-- The %s formatting of types.NamespacedName: "namespace/name". -/
def NamespacedName.format (n : NamespacedName) : String :=
  n.Namespace ++ "/" ++ n.Name

/-- state.BackendRef (backend_group.go): internal representation of a
backendRef in an HTTPRoute. Weight is a Go int32. -/
structure BackendRef where
  Name : String
  Valid : Bool
  Weight : Int
  deriving DecidableEq, Repr

/-- Go zero value of state.BackendRef. -/
instance : Inhabited BackendRef := ⟨⟨"", false, 0⟩⟩

/-- state.BackendGroup (backend_group.go): a group of backends for one rule
of an HTTPRoute. RuleIdx is a non-negative index into the route's rules. -/
structure BackendGroup where
  Source : NamespacedName
  RuleIdx : Nat
  Backends : List BackendRef
  deriving DecidableEq, Repr

/-- Go zero value of state.BackendGroup. -/
instance : Inhabited BackendGroup := ⟨⟨⟨"", ""⟩, 0, []⟩⟩

/-- BackendGroup.NeedsSplit (backend_group.go): true iff traffic needs to be
split among the backends in the group, i.e. len(bg.Backends) > 1. -/
def BackendGroup.NeedsSplit (bg : BackendGroup) : Bool :=
  bg.Backends.length > 1

/-- BackendGroup.GroupName (backend_group.go):
fmt.Sprintf("%s_%s_rule%d", bg.Source.Namespace, bg.Source.Name, bg.RuleIdx). -/
def BackendGroup.GroupName (bg : BackendGroup) : String :=
  bg.Source.Namespace ++ "_" ++ bg.Source.Name ++ "_rule" ++ toString bg.RuleIdx

/-- BackendGroup.Name (backend_group.go): switch on len(bg.Backends);
0 backends yield "", a single backend yields its name when it is valid with
positive weight and "" otherwise, more backends yield the group name. -/
def BackendGroup.Name (bg : BackendGroup) : String :=
  match bg.Backends with
  | [] => ""
  | [b] => if b.Weight ≤ 0 || !b.Valid then "" else b.Name
  | _ :: _ :: _ => bg.GroupName

end state

namespace v1beta1

/-- v1beta1.HTTPPathMatch: only the Value field is read by the core. -/
structure HTTPPathMatch where
  Value : Option String
  deriving DecidableEq, Repr, Inhabited

/-- v1beta1.HTTPHeaderMatch. Type is one of the HeaderMatchType constants
("Exact", "RegularExpression"); the Go field is a pointer to that type. -/
structure HTTPHeaderMatch where
  Type' : Option String
  Name : String
  Value : String
  deriving DecidableEq, Repr, Inhabited

/-- v1beta1.HTTPQueryParamMatch. -/
structure HTTPQueryParamMatch where
  Type' : Option String
  Name : String
  Value : String
  deriving DecidableEq, Repr, Inhabited

/-- v1beta1.HTTPRouteMatch. Method is an HTTPMethod string. -/
structure HTTPRouteMatch where
  Path : Option HTTPPathMatch
  Method : Option String
  Headers : Option (List HTTPHeaderMatch)
  QueryParams : Option (List HTTPQueryParamMatch)
  deriving DecidableEq, Repr, Inhabited

/-- v1beta1.HTTPRequestRedirectFilter. Port and StatusCode are numeric in Go
(int32 and int). -/
structure HTTPRequestRedirectFilter where
  Scheme : Option String
  Hostname : Option String
  Port : Option Int
  StatusCode : Option Int
  deriving DecidableEq, Repr, Inhabited

/-- v1beta1.HTTPRouteFilter: a tagged union; Type is the
HTTPRouteFilterType string, e.g. "RequestRedirect". -/
structure HTTPRouteFilter where
  Type' : String
  RequestRedirect : Option HTTPRequestRedirectFilter
  deriving DecidableEq, Repr, Inhabited

/-- v1beta1.BackendRef (the Kubernetes resource field, distinct from
state.BackendRef): Kind, Namespace, Port and Weight are optional in the API. -/
structure BackendRef where
  Kind : Option String
  Name : String
  Namespace : Option String
  Port : Option Int
  deriving DecidableEq, Repr, Inhabited

/-- v1beta1.HTTPBackendRef: a BackendRef plus the optional Weight. -/
structure HTTPBackendRef where
  BackendRef : BackendRef
  Weight : Option Int
  deriving DecidableEq, Repr, Inhabited

/-- v1beta1.HTTPRouteRule: ordered matches, filters and backend refs. -/
structure HTTPRouteRule where
  Matches : List HTTPRouteMatch
  Filters : List HTTPRouteFilter
  BackendRefs : List HTTPBackendRef
  deriving DecidableEq, Repr, Inhabited

/-- v1beta1.HTTPRouteSpec: the hostnames and rules of an HTTPRoute. -/
structure HTTPRouteSpec where
  Hostnames : List String
  Rules : List HTTPRouteRule
  deriving DecidableEq, Repr, Inhabited

/-- v1beta1.HTTPRoute: object metadata (namespace, name, creation
timestamp) plus spec. The creation timestamp is only read by the
match-rule sort. -/
structure HTTPRoute where
  Namespace : String
  Name : String
  Spec : HTTPRouteSpec
  CreationTimestamp : Int := 0
  deriving DecidableEq, Repr, Inhabited

/-- v1beta1.ProtocolType restricted to the two protocols the core handles
(spec section 3: protocol ∈ \x7bHTTP, HTTPS\x7d). -/
inductive ProtocolType where
  | HTTP
  | HTTPS
  deriving DecidableEq, Repr, Inhabited

end v1beta1

namespace state

/-- state.Filters (configuration.go): the filters folded for one MatchRule. -/
structure Filters where
  RequestRedirect : Option v1beta1.HTTPRequestRedirectFilter
  deriving DecidableEq, Repr, Inhabited

/-- state.MatchRule (configuration.go). -/
structure MatchRule where
  MatchIdx : Nat
  RuleIdx : Nat
  Filters : Filters
  BackendGroup : BackendGroup
  Source : v1beta1.HTTPRoute
  deriving DecidableEq, Repr, Inhabited

/-- MatchRule.GetMatch (configuration.go):
r.Source.Spec.Rules[r.RuleIdx].Matches[r.MatchIdx]. Indexing is total in the
model via the Go zero values; built configurations only use in-range indices. -/
def MatchRule.GetMatch (r : MatchRule) : v1beta1.HTTPRouteMatch :=
  ((r.Source.Spec.Rules.getD r.RuleIdx default).Matches.getD r.MatchIdx default)

/-- state.PathRule (configuration.go): routing rules sharing one path. -/
structure PathRule where
  Path : String
  MatchRules : List MatchRule
  deriving DecidableEq, Repr, Inhabited

/-- state.SSL (configuration.go). -/
structure SSL where
  CertificatePath : String
  deriving DecidableEq, Repr, Inhabited

/-- state.VirtualServer (configuration.go); the SSL pointer becomes Option. -/
structure VirtualServer where
  Hostname : String
  PathRules : List PathRule
  SSL : Option SSL
  deriving DecidableEq, Repr, Inhabited

/-- state.Upstream (configuration.go). -/
structure Upstream where
  Name : String
  Endpoints : List resolver.Endpoint
  deriving DecidableEq, Repr, Inhabited

/-- state.Configuration (configuration.go): the data-plane-neutral IR. -/
structure Configuration where
  HTTPServers : List VirtualServer
  SSLServers : List VirtualServer
  Upstreams : List Upstream
  BackendGroups : List BackendGroup
  deriving DecidableEq, Repr, Inhabited

end state

namespace config

/-- nginx502Server (upstreams.go): the backend used for services that cannot
be resolved. -/
def nginx502Server : String := "unix:/var/lib/nginx/nginx-502-server.sock"

/-- invalidBackendRef (upstreams.go): the upstream name used for invalid
backend references. -/
def invalidBackendRef : String := "invalid-backend-ref"

/-- The backend-name selection inlined in createServer (servers.go lines
104-107): backendName := r.BackendGroup.Name(); if it is empty, the
invalid-backend-ref sentinel is used instead. -/
def backendNameOrInvalid (bg : state.BackendGroup) : String :=
  let backendName := bg.Name
  if backendName = "" then invalidBackendRef else backendName

end config

namespace http

/-- http.UpstreamServer (internal/nginx/config/http). -/
structure UpstreamServer where
  Address : String
  deriving DecidableEq, Repr, Inhabited

/-- http.Upstream (internal/nginx/config/http). -/
structure Upstream where
  Name : String
  Servers : List UpstreamServer
  deriving DecidableEq, Repr, Inhabited

/-- http.StatusCode; StatusFound = 302 and StatusNotFound = 404. -/
def StatusFound : Int := 302

/-- http.StatusNotFound = 404. -/
def StatusNotFound : Int := 404

/-- http.Return: an HTTP return directive (code plus URL). -/
structure Return where
  Code : Int
  URL : String
  deriving DecidableEq, Repr, Inhabited

/-- http.SSL. -/
structure SSL where
  Certificate : String
  CertificateKey : String
  deriving DecidableEq, Repr, Inhabited

/-- http.Location; the Return pointer becomes Option, the string fields keep
the Go zero value "" for absent. -/
structure Location where
  Return : Option Return
  Path : String
  ProxyPass : String
  HTTPMatchVar : String
  Internal : Bool
  deriving DecidableEq, Repr

/-- Go zero value of http.Location. -/
instance : Inhabited Location := ⟨⟨none, "", "", "", false⟩⟩

/-- http.Server. -/
structure Server where
  SSL : Option SSL
  ServerName : String
  Locations : List Location
  IsDefaultHTTP : Bool
  IsDefaultSSL : Bool
  deriving DecidableEq, Repr

/-- Go zero value of http.Server. -/
instance : Inhabited Server := ⟨⟨none, "", [], false, false⟩⟩

/-- http.SplitClientDistribution (internal/nginx/config/http). The Go field
Percent is the %.2f rendering of a float64 (or the literal "100"); the
model keeps the two-decimal fixed-point value of that rendered string,
which determines the string exactly. -/
structure SplitClientDistribution where
  Percent : ℚ
  Value : String
  deriving DecidableEq, Repr, Inhabited

/-- http.SplitClient. -/
structure SplitClient where
  VariableName : String
  Distributions : List SplitClientDistribution
  deriving DecidableEq, Repr, Inhabited

end http

namespace config

/-- createUpstream (upstreams.go): an upstream with no endpoints gets the
single 502 server; otherwise one server per endpoint with address
fmt.Sprintf("%s:%d", ep.Address, ep.Port). -/
def createUpstream (up : state.Upstream) : http.Upstream :=
  match up.Endpoints with
  | [] =>
    { Name := up.Name
      Servers := [{ Address := nginx502Server }] }
  | eps@(_ :: _) =>
    { Name := up.Name
      Servers := eps.map (fun ep => { Address := ep.Address ++ ":" ++ toString ep.Port }) }

/-- createInvalidBackendRefUpstream (upstreams.go). -/
def createInvalidBackendRefUpstream : http.Upstream :=
  { Name := invalidBackendRef
    Servers := [{ Address := nginx502Server }] }

/-- createUpstreams (upstreams.go): one generated upstream per input
upstream, with the invalid-backend-ref upstream appended. -/
def createUpstreams (upstreams : List state.Upstream) : List http.Upstream :=
  upstreams.map createUpstream ++ [createInvalidBackendRefUpstream]

end config

/-- C3: for every Upstream passed to the generator, the generated upstream
keeps its name and has one server per endpoint formatted "address:port",
except that an empty endpoint list yields exactly the one 502-loopback
server; and createUpstreams drops no upstream (it emits one output per
input, names preserved, plus the sentinel). -/
theorem C3_upstream_servers (up : state.Upstream) (ups : List state.Upstream) :
    ((config.createUpstream up).Name = up.Name) ∧
    (up.Endpoints = [] →
      (config.createUpstream up).Servers = [{ Address := config.nginx502Server }]) ∧
    (up.Endpoints ≠ [] →
      (config.createUpstream up).Servers =
        up.Endpoints.map (fun ep => { Address := ep.Address ++ ":" ++ toString ep.Port })) ∧
    ((config.createUpstreams ups).map http.Upstream.Name =
      ups.map state.Upstream.Name ++ [config.invalidBackendRef]) := by
  refine ⟨?_, ?_, ?_, ?_⟩
  · cases h : up.Endpoints <;> simp [config.createUpstream, h]
  · intro h; simp [config.createUpstream, h]
  · intro h
    match hh : up.Endpoints with
    | [] => exact absurd hh h
    | e :: es => simp [config.createUpstream, hh]
  · induction ups with
    | nil => rfl
    | cons u us ih =>
      simp only [config.createUpstreams, List.map_cons, List.map_append,
        List.cons_append, List.cons.injEq] at ih ⊢
      refine ⟨?_, ih⟩
      cases h : u.Endpoints <;> simp [config.createUpstream, h]

/-- Witness for C3 at concrete inputs: an upstream with no endpoints and one
with a single endpoint. -/
theorem C3_upstream_servers_witness :
    ((config.createUpstream ⟨"u0", []⟩).Servers = [{ Address := config.nginx502Server }]) ∧
    ((config.createUpstream ⟨"u1", [⟨"10.0.0.1", 8080⟩]⟩).Servers =
      [{ Address := "10.0.0.1:8080" }]) ∧
    ((config.createUpstreams [⟨"u0", []⟩, ⟨"u1", [⟨"10.0.0.1", 8080⟩]⟩]).map http.Upstream.Name =
      ["u0", "u1", config.invalidBackendRef]) := by
  refine ⟨?_, ?_, ?_⟩
  · exact (C3_upstream_servers ⟨"u0", []⟩ []).2.1 rfl
  · have h := (C3_upstream_servers ⟨"u1", [⟨"10.0.0.1", 8080⟩]⟩ []).2.2.1 (by decide)
    rw [h]; rfl
  · exact (C3_upstream_servers ⟨"u0", []⟩ [⟨"u0", []⟩, ⟨"u1", [⟨"10.0.0.1", 8080⟩]⟩]).2.2.2


namespace config

/-- Two's-complement wrap of an Int into the int32 range, used where the Go
code accumulates int32 values. -/
def wrap32 (x : Int) : Int := (x + 2 ^ 31) % 2 ^ 32 - 2 ^ 31

/-- The total-weight loop of createSplitClientDistributions
(split_clients.go): totalWeight += b.Weight over all backends, in Go int32
arithmetic. -/
def totalWeightOf (backends : List state.BackendRef) : Int :=
  backends.foldl (fun acc b => wrap32 (acc + b.Weight)) 0

/-- Round a rational to the nearest integer, ties to even (the IEEE-754
default rounding direction). -/
def roundNearestEven (m : ℚ) : ℤ :=
  let n := ⌊m⌋
  if m - n < 1 / 2 then n
  else if 1 / 2 < m - n then n + 1
  else if n % 2 = 0 then n else n + 1

/-- Rounding to the Go float64 (IEEE-754 binary64) grid: the nearest
rational with a 53-bit significand, ties to even. The exponent is left
unbounded: every value reached in split-clients generation is many orders
of magnitude away from the binary64 overflow and subnormal thresholds,
where this grid and binary64 agree. -/
def fl (q : ℚ) : ℚ :=
  if q = 0 then 0
  else
    let e : ℤ := Int.log 2 |q|
    let s : ℚ := if q < 0 then -1 else 1
    s * (roundNearestEven (|q| / 2 ^ (e - 52)) : ℚ) * 2 ^ (e - 52)

/-- The two-decimal fixed-point value printed by fmt.Sprintf("%.2f", q)
for a float64 q: strconv rounds the exact decimal expansion of the binary
value to two digits, to nearest with ties to even. -/
def fmt2 (q : ℚ) : ℚ := (roundNearestEven (q * 100) : ℚ) / 100

/-- percentOf (split_clients.go): p := (float64(weight) * 100) /
float64(totalWeight) followed by math.Floor(p*100) / 100, with every
conversion and arithmetic operation rounded to binary64 by fl
(math.Floor itself is exact on float64). -/
def percentOf (weight totalWeight : Int) : ℚ :=
  let p := fl (fl (fl (weight : ℚ) * 100) / fl (totalWeight : ℚ))
  fl ((⌊fl (p * 100)⌋ : ℚ) / 100)

/-- getSplitClientValue (split_clients.go): a valid backend contributes its
name, an invalid one the invalid-backend-ref sentinel. -/
def getSplitClientValue (b : state.BackendRef) : String :=
  if b.Valid then b.Name else invalidBackendRef

/-- One iteration of the distribution loop of createSplitClientDistributions
(split_clients.go): append the backend's distribution (its Percent is the
%.2f rendering of the percentage) and subtract the percentage from the
available percentage in float64 arithmetic. -/
def splitStep (totalWeight : Int) (acc : List http.SplitClientDistribution × ℚ)
    (b : state.BackendRef) : List http.SplitClientDistribution × ℚ :=
  let percentage := percentOf b.Weight totalWeight
  (acc.1 ++ [{ Percent := fmt2 percentage, Value := getSplitClientValue b }],
   fl (acc.2 - percentage))

/-- createSplitClientDistributions (split_clients.go). none models the Go
nil result (the group needs no split). Otherwise: with total weight zero a
single 100%-to-invalid-backend distribution; else the loop over all
backends but the last, starting from 100 available percent, and the last
backend receives the remaining percentage. -/
def createSplitClientDistributions (group : state.BackendGroup) :
    Option (List http.SplitClientDistribution) :=
  if !group.NeedsSplit then none
  else
    let backends := group.Backends
    let totalWeight := totalWeightOf backends
    if totalWeight = 0 then
      some [{ Percent := 100, Value := invalidBackendRef }]
    else
      let loopOut := backends.dropLast.foldl (splitStep totalWeight) ([], 100)
      let lastBackend := backends.getLast?.getD default
      some (loopOut.1 ++
        [{ Percent := fmt2 loopOut.2, Value := getSplitClientValue lastBackend }])

end config

/-- The distribution loop is append-plus-subtract: folding splitStep over a
list of backends appends their rendered distributions in order and chains
the float64 subtractions of their percentages through the available
percentage. -/
theorem splitStep_foldl (t : Int) (l : List state.BackendRef)
    (acc : List http.SplitClientDistribution) (avail : ℚ) :
    l.foldl (config.splitStep t) (acc, avail) =
      (acc ++ l.map (fun b =>
        { Percent := config.fmt2 (config.percentOf b.Weight t)
          Value := config.getSplitClientValue b }),
       l.foldl (fun a b => config.fl (a - config.percentOf b.Weight t)) avail) := by
  induction l generalizing acc avail with
  | nil => simp
  | cons b bs ih =>
    simp only [List.foldl_cons, config.splitStep, List.map_cons]
    rw [ih]
    simp

/-- roundNearestEven at a value within [n, n + 1/2) is n. -/
theorem roundNearestEven_eq_low (m : ℚ) (n : ℤ) (h1 : (n : ℚ) ≤ m)
    (h2 : m < (n : ℚ) + 1 / 2) : config.roundNearestEven m = n := by
  have hfl : ⌊m⌋ = n := Int.floor_eq_iff.mpr ⟨h1, by linarith⟩
  simp only [config.roundNearestEven, hfl]
  rw [if_pos (by linarith)]

/-- roundNearestEven at a value within (n + 1/2, n + 1) is n + 1. -/
theorem roundNearestEven_eq_high (m : ℚ) (n : ℤ) (h1 : (n : ℚ) + 1 / 2 < m)
    (h2 : m < (n : ℚ) + 1) : config.roundNearestEven m = n + 1 := by
  have hfl : ⌊m⌋ = n := Int.floor_eq_iff.mpr ⟨by linarith, h2⟩
  simp only [config.roundNearestEven, hfl]
  rw [if_neg (by linarith), if_pos (by linarith)]

/-- Evaluation rule for fl on a positive rational whose binade is known:
scale into [2^52, 2^53), round, scale back. -/
theorem fl_eval (q : ℚ) (e : ℤ) (hq : 0 < q) (h1 : 2 ^ e ≤ q)
    (h2 : q < 2 ^ (e + 1)) :
    config.fl q =
      (config.roundNearestEven (q / 2 ^ (e - 52)) : ℚ) * 2 ^ (e - 52) := by
  have hb : (1 : ℕ) < 2 := one_lt_two
  have hlog_ge : e ≤ Int.log 2 q := by
    refine (Int.zpow_le_iff_le_log hb hq).mp ?_
    exact_mod_cast h1
  have hlog : Int.log 2 q = e := by
    refine le_antisymm ?_ hlog_ge
    by_contra hcon
    push_neg at hcon
    have hle : ((2 : ℕ) : ℚ) ^ (e + 1) ≤ q := (Int.zpow_le_iff_le_log hb hq).mpr hcon
    have : (2 : ℚ) ^ (e + 1) ≤ q := by exact_mod_cast hle
    linarith
  simp only [config.fl]
  rw [if_neg (ne_of_gt hq), abs_of_pos hq, hlog, if_neg (not_lt.mpr (le_of_lt hq))]
  ring

/-- fl evaluation when the scaled significand rounds down. -/
theorem fl_eval_low (q : ℚ) (e n : ℤ) (hq : 0 < q) (h1 : 2 ^ e ≤ q)
    (h2 : q < 2 ^ (e + 1)) (h3 : (n : ℚ) ≤ q / 2 ^ (e - 52))
    (h4 : q / 2 ^ (e - 52) < (n : ℚ) + 1 / 2) :
    config.fl q = (n : ℚ) * 2 ^ (e - 52) := by
  rw [fl_eval q e hq h1 h2, roundNearestEven_eq_low _ n h3 h4]

/-- fl evaluation when the scaled significand rounds up. -/
theorem fl_eval_high (q : ℚ) (e n : ℤ) (hq : 0 < q) (h1 : 2 ^ e ≤ q)
    (h2 : q < 2 ^ (e + 1)) (h3 : (n : ℚ) + 1 / 2 < q / 2 ^ (e - 52))
    (h4 : q / 2 ^ (e - 52) < (n : ℚ) + 1) :
    config.fl q = ((n + 1 : ℤ) : ℚ) * 2 ^ (e - 52) := by
  rw [fl_eval q e hq h1 h2, roundNearestEven_eq_high _ n h3 h4]

/-- The float64 evaluation of percentOf at weight 113 of total weight
10000: the quotient 1.13 is not a binary64 value; it rounds to the double
just below 1.13, p*100 rounds to just below 113, and math.Floor yields
112, so the result is the double nearest 1.12 (not 1.13, although the
exact share is exactly 1.13 percent). -/
theorem percentOf_113_10000 :
    config.percentOf 113 10000 = 5044031582654956 / 2 ^ 52 := by
  have e1 : config.fl ((113 : Int) : ℚ) = 113 := by
    have h := fl_eval_low 113 6 7951668092076032 (by norm_num) (by norm_num)
      (by norm_num) (by norm_num) (by norm_num)
    push_cast
    rw [h]; norm_num
  have e2 : config.fl ((113 : ℚ) * 100) = 11300 := by
    have h := fl_eval_low 11300 13 6212240696934400 (by norm_num) (by norm_num)
      (by norm_num) (by norm_num) (by norm_num)
    norm_num
    rw [h]; norm_num
  have e3 : config.fl ((10000 : Int) : ℚ) = 10000 := by
    have h := fl_eval_low 10000 13 5497558138880000 (by norm_num) (by norm_num)
      (by norm_num) (by norm_num) (by norm_num)
    push_cast
    rw [h]; norm_num
  have e4 : config.fl ((11300 : ℚ) / 10000) = 5089067578928660 / 2 ^ 52 := by
    have h := fl_eval_low (11300 / 10000) 0 5089067578928660 (by norm_num)
      (by norm_num) (by norm_num) (by norm_num) (by norm_num)
    rw [show ((11300 : ℚ) / 10000) = 113 / 100 by norm_num] at h ⊢
    rw [h]; norm_num
  have e5 : config.fl ((5089067578928660 / 2 ^ 52 : ℚ) * 100) =
      7951668092076031 / 2 ^ 46 := by
    have h := fl_eval_low ((5089067578928660 / 2 ^ 52 : ℚ) * 100) 6
      7951668092076031 (by norm_num) (by norm_num) (by norm_num) (by norm_num)
      (by norm_num)
    rw [h]; norm_num
  have e6 : (⌊(7951668092076031 / 2 ^ 46 : ℚ)⌋ : ℤ) = 112 := by
    rw [Int.floor_eq_iff]
    constructor <;> norm_num
  have e7 : config.fl ((112 : ℚ) / 100) = 5044031582654956 / 2 ^ 52 := by
    have h := fl_eval_high (112 / 100) 0 5044031582654955 (by norm_num)
      (by norm_num) (by norm_num) (by norm_num) (by norm_num)
    rw [h]; norm_num
  simp only [config.percentOf]
  rw [e1, e2, e3, e4, e5, e6]
  push_cast
  rw [e7]

/-- The float64 result for weight 113 of 10000 prints as "1.12". -/
theorem fmt2_percentOf_113 :
    config.fmt2 (5044031582654956 / 2 ^ 52) = 28 / 25 := by
  simp only [config.fmt2]
  rw [roundNearestEven_eq_low _ 112 (by norm_num) (by norm_num)]
  norm_num

/-- The float64 subtraction 100 - percentOf(113, 10000). -/
theorem fl_avail_113 :
    config.fl (100 - 5044031582654956 / 2 ^ 52) = 6958061424287416 / 2 ^ 46 := by
  have h := fl_eval_low (100 - 5044031582654956 / 2 ^ 52) 6 6958061424287416
    (by norm_num) (by norm_num) (by norm_num) (by norm_num) (by norm_num)
  rw [h]; norm_num

/-- The residual float64 for the 113/9887 group prints as "98.88". -/
theorem fmt2_avail_113 :
    config.fmt2 (6958061424287416 / 2 ^ 46) = 2472 / 25 := by
  simp only [config.fmt2]
  rw [roundNearestEven_eq_high _ 9887 (by norm_num) (by norm_num)]
  norm_num

/-- The float64 evaluation of percentOf at weight 3 of total weight 9:
the double nearest 33.33. -/
theorem percentOf_3_9 : config.percentOf 3 9 = 4690780486883082 / 2 ^ 47 := by
  have e1 : config.fl ((3 : Int) : ℚ) = 3 := by
    have h := fl_eval_low 3 1 6755399441055744 (by norm_num) (by norm_num)
      (by norm_num) (by norm_num) (by norm_num)
    push_cast
    rw [h]; norm_num
  have e2 : config.fl ((3 : ℚ) * 100) = 300 := by
    have h := fl_eval_low 300 8 5277655813324800 (by norm_num) (by norm_num)
      (by norm_num) (by norm_num) (by norm_num)
    norm_num
    rw [h]; norm_num
  have e3 : config.fl ((9 : Int) : ℚ) = 9 := by
    have h := fl_eval_low 9 3 5066549580791808 (by norm_num) (by norm_num)
      (by norm_num) (by norm_num) (by norm_num)
    push_cast
    rw [h]; norm_num
  have e4 : config.fl ((300 : ℚ) / 9) = 4691249611844267 / 2 ^ 47 := by
    have h := fl_eval_high (300 / 9) 5 4691249611844266 (by norm_num)
      (by norm_num) (by norm_num) (by norm_num) (by norm_num)
    rw [h]; norm_num
  have e5 : config.fl ((4691249611844267 / 2 ^ 47 : ℚ) * 100) =
      7330077518506667 / 2 ^ 41 := by
    have h := fl_eval_low ((4691249611844267 / 2 ^ 47 : ℚ) * 100) 11
      7330077518506667 (by norm_num) (by norm_num) (by norm_num) (by norm_num)
      (by norm_num)
    rw [h]; norm_num
  have e6 : (⌊(7330077518506667 / 2 ^ 41 : ℚ)⌋ : ℤ) = 3333 := by
    rw [Int.floor_eq_iff]
    constructor <;> norm_num
  have e7 : config.fl ((3333 : ℚ) / 100) = 4690780486883082 / 2 ^ 47 := by
    have h := fl_eval_low (3333 / 100) 5 4690780486883082 (by norm_num)
      (by norm_num) (by norm_num) (by norm_num) (by norm_num)
    rw [h]; norm_num
  simp only [config.percentOf]
  rw [e1, e2, e3, e4, e5, e6]
  push_cast
  rw [e7]

/-- The float64 result for weight 3 of 9 prints as "33.33". -/
theorem fmt2_percentOf_3 : config.fmt2 (4690780486883082 / 2 ^ 47) = 3333 / 100 := by
  simp only [config.fmt2]
  rw [roundNearestEven_eq_high _ 3332 (by norm_num) (by norm_num)]
  norm_num

/-- The float64 subtraction 100 - percentOf(3, 9) (exactly representable). -/
theorem fl_avail1_3 :
    config.fl (100 - 4690780486883082 / 2 ^ 47) = 4691484174324859 / 2 ^ 46 := by
  have h := fl_eval_low (100 - 4690780486883082 / 2 ^ 47) 6 4691484174324859
    (by norm_num) (by norm_num) (by norm_num) (by norm_num) (by norm_num)
  rw [h]; norm_num

/-- The second float64 subtraction of the 3,3,3 loop (exactly
representable). -/
theorem fl_avail2_3 :
    config.fl (4691484174324859 / 2 ^ 46 - 4690780486883082 / 2 ^ 47) =
      4692187861766636 / 2 ^ 47 := by
  have h := fl_eval_low (4691484174324859 / 2 ^ 46 - 4690780486883082 / 2 ^ 47) 5
    4692187861766636 (by norm_num) (by norm_num) (by norm_num) (by norm_num)
    (by norm_num)
  rw [h]; norm_num

/-- The residual float64 for the 3,3,3 group prints as "33.34". -/
theorem fmt2_avail_3 : config.fmt2 (4692187861766636 / 2 ^ 47) = 1667 / 50 := by
  simp only [config.fmt2]
  rw [roundNearestEven_eq_low _ 3334 (by norm_num) (by norm_num)]
  norm_num

/-- createSplitClientDistributions on a two-backend group with nonzero
total weight: the first backend gets its rendered percentage, the second
the rendered float64 residual. -/
theorem createSplit_pair (src : state.NamespacedName) (idx : Nat)
    (n1 n2 : String) (v1 v2 : Bool) (w1 w2 : Int) (t : Int)
    (ht : config.totalWeightOf [⟨n1, v1, w1⟩, ⟨n2, v2, w2⟩] = t)
    (htz : ¬t = 0) :
    config.createSplitClientDistributions ⟨src, idx, [⟨n1, v1, w1⟩, ⟨n2, v2, w2⟩]⟩ =
      some [{ Percent := config.fmt2 (config.percentOf w1 t)
              Value := config.getSplitClientValue ⟨n1, v1, w1⟩ },
            { Percent := config.fmt2 (config.fl (100 - config.percentOf w1 t))
              Value := config.getSplitClientValue ⟨n2, v2, w2⟩ }] := by
  have hns : state.BackendGroup.NeedsSplit ⟨src, idx, [⟨n1, v1, w1⟩, ⟨n2, v2, w2⟩]⟩ =
      true := by
    simp [state.BackendGroup.NeedsSplit]
  simp only [config.createSplitClientDistributions, hns, Bool.not_true,
    Bool.false_eq_true, if_false, ht, if_neg htz]
  rw [show ([⟨n1, v1, w1⟩, ⟨n2, v2, w2⟩] : List state.BackendRef).dropLast =
    [⟨n1, v1, w1⟩] from rfl]
  rw [splitStep_foldl]
  simp [List.getLast?]

/-- createSplitClientDistributions on a three-backend group with nonzero
total weight: the first two backends get their rendered percentages, the
third the rendered residual of the chained float64 subtractions. -/
theorem createSplit_triple (src : state.NamespacedName) (idx : Nat)
    (n1 n2 n3 : String) (v1 v2 v3 : Bool) (w1 w2 w3 : Int) (t : Int)
    (ht : config.totalWeightOf [⟨n1, v1, w1⟩, ⟨n2, v2, w2⟩, ⟨n3, v3, w3⟩] = t)
    (htz : ¬t = 0) :
    config.createSplitClientDistributions
        ⟨src, idx, [⟨n1, v1, w1⟩, ⟨n2, v2, w2⟩, ⟨n3, v3, w3⟩]⟩ =
      some [{ Percent := config.fmt2 (config.percentOf w1 t)
              Value := config.getSplitClientValue ⟨n1, v1, w1⟩ },
            { Percent := config.fmt2 (config.percentOf w2 t)
              Value := config.getSplitClientValue ⟨n2, v2, w2⟩ },
            { Percent := config.fmt2 (config.fl
                (config.fl (100 - config.percentOf w1 t) - config.percentOf w2 t))
              Value := config.getSplitClientValue ⟨n3, v3, w3⟩ }] := by
  have hns : state.BackendGroup.NeedsSplit
      ⟨src, idx, [⟨n1, v1, w1⟩, ⟨n2, v2, w2⟩, ⟨n3, v3, w3⟩]⟩ = true := by
    simp [state.BackendGroup.NeedsSplit]
  simp only [config.createSplitClientDistributions, hns, Bool.not_true,
    Bool.false_eq_true, if_false, ht, if_neg htz]
  rw [show ([⟨n1, v1, w1⟩, ⟨n2, v2, w2⟩, ⟨n3, v3, w3⟩] : List state.BackendRef).dropLast =
    [⟨n1, v1, w1⟩, ⟨n2, v2, w2⟩] from rfl]
  rw [splitStep_foldl]
  simp [List.getLast?]

/-- The three-way even split of the specification's scenario S3: weights
3,3,3 in backend order one, two, three. -/
def c1EvenGroup : state.BackendGroup :=
  { Source := { Namespace := "test", Name := "hr1" }
    RuleIdx := 0
    Backends := [{ Name := "one", Valid := true, Weight := 3 },
                 { Name := "two", Valid := true, Weight := 3 },
                 { Name := "three", Valid := true, Weight := 3 }] }

/-- A two-backend group, weights 113 and 9887, whose exact first share is
exactly 1.13 percent of the total weight 10000. -/
def c1SkewGroup : state.BackendGroup :=
  { Source := { Namespace := "test", Name := "hr2" }
    RuleIdx := 0
    Backends := [{ Name := "b113", Valid := true, Weight := 113 },
                 { Name := "b9887", Valid := true, Weight := 9887 }] }

/-- C1: evaluation of the split-clients distribution at the claim's own
example and at a failing input. For weights 3,3,3 the program emits
33.33, 33.33, 33.34 in backend order, as the claim states. But the
round-down contract fails at weights 113 and 9887 (total weight 10000):
the first backend's share of the total weight is exactly 1.13 percent,
and its two-decimal round-down is 1.13, yet the float64 double rounding
inside percentOf (the quotient rounds to the binary64 just below 1.13,
and math.Floor(p*100) then truncates to 112) makes the program emit 1.12,
and 98.88 for the residual backend instead of 98.87. -/
theorem C1_split_distribution :
    config.createSplitClientDistributions c1EvenGroup =
      some [{ Percent := 3333 / 100, Value := "one" },
            { Percent := 3333 / 100, Value := "two" },
            { Percent := 1667 / 50, Value := "three" }] ∧
    config.createSplitClientDistributions c1SkewGroup =
      some [{ Percent := 28 / 25, Value := "b113" },
            { Percent := 2472 / 25, Value := "b9887" }] ∧
    ((⌊(113 : ℚ) * 100 / 10000 * 100⌋ : ℚ) / 100 = 113 / 100) ∧
    (28 / 25 : ℚ) ≠ 113 / 100 := by
  refine ⟨?_, ?_, by norm_num, by norm_num⟩
  · have ht : config.totalWeightOf
        [⟨"one", true, 3⟩, ⟨"two", true, 3⟩, ⟨"three", true, 3⟩] = 9 := by
      simp only [config.totalWeightOf, List.foldl_cons, List.foldl_nil]
      norm_num [config.wrap32]
    simp only [c1EvenGroup]
    rw [createSplit_triple ⟨"test", "hr1"⟩ 0 "one" "two" "three" true true true
      3 3 3 9 ht (by norm_num)]
    rw [percentOf_3_9, fl_avail1_3, fl_avail2_3, fmt2_percentOf_3, fmt2_avail_3]
    simp [config.getSplitClientValue]
  · have ht : config.totalWeightOf
        [⟨"b113", true, 113⟩, ⟨"b9887", true, 9887⟩] = 10000 := by
      simp only [config.totalWeightOf, List.foldl_cons, List.foldl_nil]
      norm_num [config.wrap32]
    simp only [c1SkewGroup]
    rw [createSplit_pair ⟨"test", "hr2"⟩ 0 "b113" "b9887" true true
      113 9887 10000 ht (by norm_num)]
    rw [percentOf_113_10000, fl_avail_113, fmt2_percentOf_113, fmt2_avail_113]
    simp [config.getSplitClientValue]

namespace state

/-- getPath (configuration.go): paths with no value default to "/". -/
def getPath (path : Option v1beta1.HTTPPathMatch) : String :=
  match path with
  | none => "/"
  | some p =>
    match p.Value with
    | none => "/"
    | some v => if v = "" then "/" else v

/-- createFilters (configuration.go): scan the route's filter list in order
and take the first RequestRedirect filter; every other filter is skipped. -/
def createFilters : List v1beta1.HTTPRouteFilter → Filters
  | [] => { RequestRedirect := none }
  | f :: fs =>
    if f.Type' = "RequestRedirect" then { RequestRedirect := f.RequestRedirect }
    else createFilters fs

end state

namespace config

/-- isPathOnlyMatch (servers.go): no method, headers or query params. -/
def isPathOnlyMatch (m : v1beta1.HTTPRouteMatch) : Bool :=
  m.Method.isNone && m.Headers.isNone && m.QueryParams.isNone

/-- createQueryParamKeyValString (servers.go): "name=value". -/
def createQueryParamKeyValString (p : v1beta1.HTTPQueryParamMatch) : String :=
  p.Name ++ "=" ++ p.Value

/-- createHeaderKeyValString (servers.go): "name:value". -/
def createHeaderKeyValString (h : v1beta1.HTTPHeaderMatch) : String :=
  h.Name ++ ":" ++ h.Value

/-- httpMatch (servers.go): the internal representation of an
HTTPRouteMatch that is marshaled into the location's match variable. Nil
and empty slices both marshal identically under omitempty, so the two
list fields are plain lists here. -/
structure httpMatch where
  Any : Bool
  Method : String
  Headers : List String
  QueryParams : List String
  RedirectPath : String
  deriving DecidableEq, Repr

/-- Go zero value of httpMatch. -/
instance : Inhabited httpMatch := ⟨⟨false, "", [], [], ""⟩⟩

/-- The header-collection loop of createHTTPMatch (servers.go): keep only
Exact matches and only the first entry for every case-insensitive header
name. The accumulator carries the emitted strings and the lowercased names
already seen. -/
def collectHeaders (hs : List v1beta1.HTTPHeaderMatch) : List String :=
  (hs.foldl (fun (acc : List String × List String) h =>
    if h.Type' = some "Exact" then
      let lowerName := h.Name.toLower
      if lowerName ∈ acc.2 then acc
      else (acc.1 ++ [createHeaderKeyValString h], acc.2 ++ [lowerName])
    else acc) ([], [])).1

/-- The query-param loop of createHTTPMatch (servers.go): keep Exact
matches in order. -/
def collectQueryParams (ps : List v1beta1.HTTPQueryParamMatch) : List String :=
  (ps.filter (fun p => p.Type' = some "Exact")).map createQueryParamKeyValString

/-- createHTTPMatch (servers.go). -/
def createHTTPMatch (m : v1beta1.HTTPRouteMatch) (redirectPath : String) : httpMatch :=
  if isPathOnlyMatch m then
    { Any := true, Method := "", Headers := [], QueryParams := [], RedirectPath := redirectPath }
  else
    { Any := false
      Method := m.Method.getD ""
      Headers := match m.Headers with | none => [] | some hs => collectHeaders hs
      QueryParams := match m.QueryParams with | none => [] | some ps => collectQueryParams ps
      RedirectPath := redirectPath }

/-- One character of Go's encoding/json string escaping (the default
encoder also HTML-escapes angle brackets and ampersands). -/
def jsonEscapeChar (c : Char) : String :=
  if c = '\\' then "\\\\"
  else if c = '"' then "\\\""
  else if c = '<' then "\\u003c"
  else if c = '>' then "\\u003e"
  else if c = '&' then "\\u0026"
  else String.singleton c

/-- A JSON string literal as produced by encoding/json. -/
def jsonStr (s : String) : String :=
  "\"" ++ String.join (s.data.map jsonEscapeChar) ++ "\""

/-- A JSON array of strings. -/
def jsonStrList (l : List String) : String :=
  "[" ++ String.intercalate "," (l.map jsonStr) ++ "]"

/-- json.Marshal of one httpMatch value: fields in struct order, each
omitted when empty (omitempty on every field). -/
def httpMatchToJson (m : httpMatch) : String :=
  let fields :=
    (if m.Any then ["\"any\":true"] else []) ++
    (if m.Method ≠ "" then ["\"method\":" ++ jsonStr m.Method] else []) ++
    (if m.Headers ≠ [] then ["\"headers\":" ++ jsonStrList m.Headers] else []) ++
    (if m.QueryParams ≠ [] then ["\"params\":" ++ jsonStrList m.QueryParams] else []) ++
    (if m.RedirectPath ≠ "" then ["\"redirectPath\":" ++ jsonStr m.RedirectPath] else [])
  "\x7b" ++ String.intercalate "," fields ++ "\x7d"

/-- json.Marshal of the matches slice stored in the location's
HTTPMatchVar. -/
def httpMatchListToJson (ms : List httpMatch) : String :=
  "[" ++ String.intercalate "," (ms.map httpMatchToJson) ++ "]"

/-- convertStringToSafeVariableName. Modelled from the spec: the source
file defining this helper is not under src/; it maps a group name to an
nginx-safe variable name by replacing hyphens with underscores. No claim
depends on its exact behavior. -/
def convertStringToSafeVariableName (s : String) : String :=
  s.replace "-" "_"

/-- createProxyPass (servers.go). -/
def createProxyPass (address : String) : String :=
  "http://" ++ address

/-- createProxyPassForVar (servers.go). -/
def createProxyPassForVar (varName : String) : String :=
  "http://$" ++ convertStringToSafeVariableName varName

/-- createMatchLocation (servers.go): an internal location for one match. -/
def createMatchLocation (path : String) : http.Location :=
  { Return := none, Path := path, ProxyPass := "", HTTPMatchVar := "", Internal := true }

/-- createPathForMatch (servers.go): fmt.Sprintf("%s_route%d", path, routeIdx). -/
def createPathForMatch (path : String) (routeIdx : Nat) : String :=
  path ++ "_route" ++ toString routeIdx

/-- createReturnValForRedirectFilter (servers.go): nil filter yields nil;
otherwise scheme, hostname, port and status code default to "$scheme",
"$host", the listener port and 302 respectively, and the URL is
"scheme://hostname:port$request_uri". -/
def createReturnValForRedirectFilter (filter : Option v1beta1.HTTPRequestRedirectFilter)
    (listenerPort : Int) : Option http.Return :=
  match filter with
  | none => none
  | some f =>
    let hostname := f.Hostname.getD "$host"
    let code := f.StatusCode.getD http.StatusFound
    let port := f.Port.getD listenerPort
    let scheme := f.Scheme.getD "$scheme"
    some { Code := code
           URL := scheme ++ "://" ++ hostname ++ ":" ++ toString port ++ "$request_uri" }

/-- The first half of the per-match loop body of createServer (servers.go):
a single path-only match produces a standard location on the rule path and
no http-match entry; any other match produces an internal match location
plus its httpMatch entry. -/
def baseLocationForMatch (rule : state.PathRule) (matchRuleIdx : Nat)
    (r : state.MatchRule) : http.Location × Option httpMatch :=
  let m := r.GetMatch
  if rule.MatchRules.length == 1 && isPathOnlyMatch m then
    ({ Return := none, Path := rule.Path, ProxyPass := "", HTTPMatchVar := "",
       Internal := false }, none)
  else
    let path := createPathForMatch rule.Path matchRuleIdx
    (createMatchLocation path, some (createHTTPMatch m path))

/-- The second half of the per-match loop body of createServer (servers.go):
a RequestRedirect filter turns the location into a return directive
(RequestRedirect and proxying are mutually exclusive); otherwise the
location proxies to the group's backend name, through the split-clients
variable when the group needs a split. -/
def finishLocationForMatch (loc : http.Location) (r : state.MatchRule)
    (listenerPort : Int) : http.Location :=
  match r.Filters.RequestRedirect with
  | some _ =>
    { loc with Return := createReturnValForRedirectFilter r.Filters.RequestRedirect listenerPort }
  | none =>
    let backendName := backendNameOrInvalid r.BackendGroup
    if r.BackendGroup.NeedsSplit then
      { loc with ProxyPass := createProxyPassForVar backendName }
    else
      { loc with ProxyPass := createProxyPass backendName }

/-- The per-path-rule part of createServer (servers.go): one location per
match rule, in order, followed by the dispatching location carrying the
marshaled match list when any non-path-only matches were collected. -/
def createLocations (rule : state.PathRule) (listenerPort : Int) : List http.Location :=
  let pairs := rule.MatchRules.enum.map (fun p =>
    let bl := baseLocationForMatch rule p.1 p.2
    (finishLocationForMatch bl.1 p.2 listenerPort, bl.2))
  let locs := pairs.map Prod.fst
  let collected := pairs.filterMap Prod.snd
  if collected.isEmpty then locs
  else locs ++ [{ Return := none, Path := rule.Path, ProxyPass := "",
                  HTTPMatchVar := httpMatchListToJson collected, Internal := false }]

/-- createServer (servers.go): SSL servers listen on 443, plain servers on
80; a server with no path rules gets the default "/" 404 location. -/
def createServer (virtualServer : state.VirtualServer) : http.Server :=
  let listenerPort : Int := if virtualServer.SSL.isSome then 443 else 80
  let ssl := virtualServer.SSL.map (fun s =>
    ({ Certificate := s.CertificatePath, CertificateKey := s.CertificatePath } : http.SSL))
  if virtualServer.PathRules.isEmpty then
    { SSL := ssl, ServerName := virtualServer.Hostname
      Locations := [{ Return := some { Code := http.StatusNotFound, URL := "" },
                      Path := "/", ProxyPass := "", HTTPMatchVar := "", Internal := false }]
      IsDefaultHTTP := false, IsDefaultSSL := false }
  else
    { SSL := ssl, ServerName := virtualServer.Hostname
      Locations := (virtualServer.PathRules.map (fun rule => createLocations rule listenerPort)).flatten
      IsDefaultHTTP := false, IsDefaultSSL := false }

/-- createDefaultSSLServer (servers.go). -/
def createDefaultSSLServer : http.Server :=
  { SSL := none, ServerName := "", Locations := [], IsDefaultHTTP := false, IsDefaultSSL := true }

/-- createDefaultHTTPServer (servers.go). -/
def createDefaultHTTPServer : http.Server :=
  { SSL := none, ServerName := "", Locations := [], IsDefaultHTTP := true, IsDefaultSSL := false }

/-- createServers (servers.go): the default HTTP and SSL servers (when the
corresponding bucket is non-empty) followed by one server per virtual
server, HTTP bucket first. -/
def createServers (conf : state.Configuration) : List http.Server :=
  let confServers := conf.HTTPServers ++ conf.SSLServers
  (if conf.HTTPServers.length > 0 then [createDefaultHTTPServer] else []) ++
  (if conf.SSLServers.length > 0 then [createDefaultSSLServer] else []) ++
  confServers.map createServer

end config

/-- C7: for every BackendGroup, its IR name is "ns_route_ruleIdx" when it has
more than one backend; with exactly one resolvable backend (valid, positive
weight) the name is that backend's upstream name; otherwise (no resolvable
single backend, or no backends) the config generator falls back to the
invalid-backend sentinel as the proxy target. -/
theorem C7_backend_group_name (bg : state.BackendGroup) :
    (2 ≤ bg.Backends.length → bg.Name = bg.GroupName) ∧
    (∀ b, bg.Backends = [b] → b.Valid = true → 0 < b.Weight → bg.Name = b.Name) ∧
    (∀ b, bg.Backends = [b] → (b.Valid = false ∨ b.Weight ≤ 0) →
      config.backendNameOrInvalid bg = config.invalidBackendRef) ∧
    (bg.Backends = [] → config.backendNameOrInvalid bg = config.invalidBackendRef) := by
  refine ⟨?_, ?_, ?_, ?_⟩
  · intro h
    match hb : bg.Backends with
    | [] => rw [hb] at h; simp at h
    | [b] => rw [hb] at h; simp at h
    | _ :: _ :: _ => simp [state.BackendGroup.Name, hb]
  · intro b hb hv hw
    have hw' : ¬ b.Weight ≤ 0 := not_le.mpr hw
    simp [state.BackendGroup.Name, hb, hv, hw']
  · intro b hb hcase
    rcases hcase with hv | hw
    · simp [config.backendNameOrInvalid, state.BackendGroup.Name, hb, hv]
    · simp [config.backendNameOrInvalid, state.BackendGroup.Name, hb, hw]
  · intro hb
    simp [config.backendNameOrInvalid, state.BackendGroup.Name, hb]

/-- Witness for C7 at concrete inputs. -/
theorem C7_backend_group_name_witness :
    (2 ≤ (state.BackendGroup.mk ⟨"test", "hr"⟩ 0
        [⟨"b1", true, 1⟩, ⟨"b2", true, 1⟩]).Backends.length ∧
      (state.BackendGroup.mk ⟨"test", "hr"⟩ 0
        [⟨"b1", true, 1⟩, ⟨"b2", true, 1⟩]).Name = "test_hr_rule0") ∧
    (state.BackendGroup.mk ⟨"test", "hr"⟩ 0 [⟨"b1", true, 1⟩]).Name = "b1" ∧
    config.backendNameOrInvalid
      (state.BackendGroup.mk ⟨"test", "hr"⟩ 0 [⟨"b1", false, 1⟩]) =
      config.invalidBackendRef ∧
    config.backendNameOrInvalid (state.BackendGroup.mk ⟨"test", "hr"⟩ 0 []) =
      config.invalidBackendRef := by
  refine ⟨⟨by decide, ?_⟩, ?_, ?_, ?_⟩
  · exact (C7_backend_group_name _).1 (by decide)
  · exact (C7_backend_group_name _).2.1 ⟨"b1", true, 1⟩ rfl rfl (by decide)
  · exact (C7_backend_group_name _).2.2.1 ⟨"b1", false, 1⟩ rfl (Or.inl rfl)
  · exact (C7_backend_group_name _).2.2.2 rfl

/-- C10: a BackendGroup whose single backend is valid but has weight ≤ 0
gets the empty name, so the generated location proxies to the
invalid-backend sentinel even though the reference itself resolved. -/
theorem C10_single_nonpositive_weight (bg : state.BackendGroup) (b : state.BackendRef)
    (h : bg.Backends = [b]) (hv : b.Valid = true) (hw : b.Weight ≤ 0) :
    bg.Name = "" ∧
    config.backendNameOrInvalid bg = config.invalidBackendRef ∧
    (∀ (loc : http.Location) (r : state.MatchRule) (listenerPort : Int),
      r.BackendGroup = bg → r.Filters.RequestRedirect = none →
      (config.finishLocationForMatch loc r listenerPort).ProxyPass =
        "http://" ++ config.invalidBackendRef) := by
  have hname : bg.Name = "" := by
    simp [state.BackendGroup.Name, h, hw]
  refine ⟨hname, ?_, ?_⟩
  · simp [config.backendNameOrInvalid, hname]
  · intro loc r listenerPort hbg hnr
    have hns : bg.NeedsSplit = false := by
      simp [state.BackendGroup.NeedsSplit, h]
    simp [config.finishLocationForMatch, hnr, hns, config.createProxyPass,
      config.backendNameOrInvalid, hbg, hname]

/-- Witness for C10 at a concrete group with one valid zero-weight backend. -/
theorem C10_single_nonpositive_weight_witness :
    (state.BackendGroup.mk ⟨"test", "hr"⟩ 0 [⟨"b1", true, 0⟩]).Backends =
        [⟨"b1", true, 0⟩] ∧
      (⟨"b1", true, 0⟩ : state.BackendRef).Valid = true ∧
      (⟨"b1", true, 0⟩ : state.BackendRef).Weight ≤ 0 ∧
      (state.BackendGroup.mk ⟨"test", "hr"⟩ 0 [⟨"b1", true, 0⟩]).Name = "" ∧
      (config.finishLocationForMatch default
          { MatchIdx := 0, RuleIdx := 0, Filters := { RequestRedirect := none }
            BackendGroup := state.BackendGroup.mk ⟨"test", "hr"⟩ 0 [⟨"b1", true, 0⟩]
            Source := default } 80).ProxyPass = "http://" ++ config.invalidBackendRef := by
  have h := C10_single_nonpositive_weight
    (state.BackendGroup.mk ⟨"test", "hr"⟩ 0 [⟨"b1", true, 0⟩]) ⟨"b1", true, 0⟩
    rfl rfl (by decide)
  exact ⟨rfl, rfl, by decide, h.1, h.2.2 default _ 80 rfl rfl⟩

/-- If the index is in range, the index/value pair is a member of enum. -/
theorem pair_mem_enum {α : Type} {l : List α} {i : Nat} {x : α}
    (h : l[i]? = some x) : (i, x) ∈ l.enum :=
  List.mem_enum_iff_getElem?.mpr h

/-- The first half of the per-match loop never sets a proxy pass. -/
theorem baseLocationForMatch_proxyPass (rule : state.PathRule) (i : Nat)
    (r : state.MatchRule) : (config.baseLocationForMatch rule i r).1.ProxyPass = "" := by
  simp only [config.baseLocationForMatch, config.createMatchLocation]
  by_cases h : (rule.MatchRules.length == 1 && config.isPathOnlyMatch r.GetMatch) = true
  · simp [h]
  · simp [eq_false_of_ne_true h]

/-- Every per-match location appears in the output of createLocations. -/
theorem finishLocation_mem_createLocations (rule : state.PathRule)
    (listenerPort : Int) (i : Nat) (r : state.MatchRule)
    (h : rule.MatchRules[i]? = some r) :
    config.finishLocationForMatch (config.baseLocationForMatch rule i r).1 r listenerPort ∈
      config.createLocations rule listenerPort := by
  have hmem : (i, r) ∈ rule.MatchRules.enum := pair_mem_enum h
  have hinmap :
      config.finishLocationForMatch (config.baseLocationForMatch rule i r).1 r listenerPort ∈
        rule.MatchRules.enum.map (Prod.fst ∘ fun p =>
          (config.finishLocationForMatch (config.baseLocationForMatch rule p.1 p.2).1 p.2 listenerPort,
           (config.baseLocationForMatch rule p.1 p.2).2)) :=
    List.mem_map.mpr ⟨(i, r), hmem, rfl⟩
  simp only [config.createLocations, List.map_map]
  split
  · exact hinmap
  · exact List.mem_append_left _ hinmap

/-- C8: only the first RequestRedirect filter of a rule's filter list is
honored by createFilters; and for every MatchRule carrying a
RequestRedirect filter, the generated server contains a location with a
return directive whose status defaults to 302 and whose URL is
"scheme-or-dollar-scheme://hostname-or-dollar-host:port$request_uri" with
the port defaulting to 443 for SSL servers and 80 otherwise, and that
location has no proxy pass. -/
theorem C8_redirect_first_filter :
    (∀ fs : List v1beta1.HTTPRouteFilter,
      (state.createFilters fs).RequestRedirect =
        (fs.find? (fun f => f.Type' == "RequestRedirect")).bind
          v1beta1.HTTPRouteFilter.RequestRedirect) ∧
    (∀ (vs : state.VirtualServer) (pr : state.PathRule), pr ∈ vs.PathRules →
      ∀ (i : Nat) (r : state.MatchRule), pr.MatchRules[i]? = some r →
      ∀ rd, r.Filters.RequestRedirect = some rd →
      ∃ loc ∈ (config.createServer vs).Locations,
        loc.Return = some { Code := rd.StatusCode.getD http.StatusFound,
                            URL := rd.Scheme.getD "$scheme" ++ "://" ++
                              rd.Hostname.getD "$host" ++ ":" ++
                              toString (rd.Port.getD (if vs.SSL.isSome then 443 else 80)) ++
                              "$request_uri" } ∧
        loc.ProxyPass = "") := by
  constructor
  · intro fs
    induction fs with
    | nil => rfl
    | cons f fs ih =>
      by_cases h : f.Type' = "RequestRedirect"
      · simp [state.createFilters, h, List.find?_cons]
      · rw [List.find?_cons_of_neg _ (by simpa using h)]
        simpa [state.createFilters, h] using ih
  · intro vs pr hpr i r hir rd hrd
    refine ⟨config.finishLocationForMatch (config.baseLocationForMatch pr i r).1 r
      (if vs.SSL.isSome then 443 else 80), ?_, ?_, ?_⟩
    · have hne : vs.PathRules.isEmpty = false := by
        cases hh : vs.PathRules with
        | nil => rw [hh] at hpr; simp at hpr
        | cons a l => simp [hh]
      simp only [config.createServer, hne, Bool.false_eq_true, if_false]
      exact List.mem_flatten.mpr ⟨config.createLocations pr (if vs.SSL.isSome then 443 else 80),
        List.mem_map.mpr ⟨pr, hpr, rfl⟩,
        finishLocation_mem_createLocations pr _ i r hir⟩
    · simp [config.finishLocationForMatch, hrd, config.createReturnValForRedirectFilter]
    · simp only [config.finishLocationForMatch, hrd]
      exact baseLocationForMatch_proxyPass pr i r

/-- A virtual server with one path rule whose single match rule carries a
redirect filter with hostname foo.example.com and no port, scheme or
status (the specification's scenario S6). -/
def c8ExampleServer : state.VirtualServer :=
  { Hostname := "foo.example.com",
    PathRules := [{ Path := "/",
                    MatchRules := [{ MatchIdx := 0, RuleIdx := 0,
                                     Filters := { RequestRedirect := some { Scheme := none,
                                                                            Hostname := some "foo.example.com",
                                                                            Port := none,
                                                                            StatusCode := none } },
                                     BackendGroup := default,
                                     Source := default }] }],
    SSL := none }

/-- Witness for C8: the redirect location generated for scenario S6 carries
code 302 and URL dollar-scheme://foo.example.com:80$request_uri. -/
theorem C8_redirect_first_filter_witness :
    (state.createFilters [⟨"RequestRedirect", some ⟨none, some "foo.example.com", none, none⟩⟩,
        ⟨"RequestRedirect", some ⟨some "https", none, none, none⟩⟩]).RequestRedirect =
      some ⟨none, some "foo.example.com", none, none⟩ ∧
    ((c8ExampleServer.PathRules[0]?).isSome ∧
      ∃ loc ∈ (config.createServer c8ExampleServer).Locations,
        loc.Return = some { Code := 302, URL := "$scheme://foo.example.com:80$request_uri" } ∧
        loc.ProxyPass = "") := by
  constructor
  · rw [C8_redirect_first_filter.1]
    rfl
  · refine ⟨by decide, ?_⟩
    have h := C8_redirect_first_filter.2 c8ExampleServer
      { Path := "/", MatchRules := [{ MatchIdx := 0, RuleIdx := 0,
                                      Filters := { RequestRedirect := some { Scheme := none,
                                                                             Hostname := some "foo.example.com",
                                                                             Port := none,
                                                                             StatusCode := none } },
                                      BackendGroup := default, Source := default }] }
      (by simp [c8ExampleServer]) 0
      { MatchIdx := 0, RuleIdx := 0,
        Filters := { RequestRedirect := some { Scheme := none,
                                               Hostname := some "foo.example.com",
                                               Port := none, StatusCode := none } },
        BackendGroup := default, Source := default }
      rfl
      { Scheme := none, Hostname := some "foo.example.com", Port := none, StatusCode := none }
      rfl
    simpa using h

/-- Lookup in an association list (Go map read m[k]). -/
def alistLookup {κ α : Type} [DecidableEq κ] (k : κ) : List (κ × α) → Option α
  | [] => none
  | (k', v) :: rest => if k' = k then some v else alistLookup k rest

/-- Insert-or-replace in an association list (Go map write m[k] = v). -/
def alistInsert {κ α : Type} [DecidableEq κ] (k : κ) (v : α) :
    List (κ × α) → List (κ × α)
  | [] => [(k, v)]
  | (k', v') :: rest =>
    if k' = k then (k, v) :: rest else (k', v') :: alistInsert k v rest

namespace state

/-- v1.Service projected to the fields the core reads (object metadata). -/
structure Service where
  Namespace : String
  Name : String
  deriving DecidableEq, Repr, Inhabited

/-- resolver.ServiceResolver.Resolve (the endpoint resolver, component 4.A),
as consumed by the backend resolver: given the Service and port it returns
the resolved endpoints and an optional error message. -/
def ServiceResolver : Type := Service → Int → List resolver.Endpoint × Option String

/-- validateBackendRef (backend_refs.go): reject when the kind is set and
not "Service", when the namespace is set and differs from the route's
namespace, or when the port is absent; each rejection carries its message. -/
def validateBackendRef (ref : v1beta1.BackendRef) (routeNs : String) : Option String :=
  if ref.Kind ≠ none ∧ ref.Kind ≠ some "Service" then
    some ("the Kind must be Service; got " ++ ref.Kind.getD "")
  else if ref.Namespace ≠ none ∧ ref.Namespace ≠ some routeNs then
    some ("cross-namespace routing is not permitted; namespace " ++ ref.Namespace.getD "" ++
      " does not match the HTTPRoute namespace " ++ routeNs)
  else if ref.Port = none then
    some "port is missing"
  else
    none

/-- getServiceAndPortFromRef (backend_refs.go): validate the ref, then look
the Service up by (route namespace, ref name). The port dereference is safe
because validation guarantees it is present; the model uses getD 0. -/
def getServiceAndPortFromRef (ref : v1beta1.BackendRef) (routeNamespace : String)
    (services : List (NamespacedName × Service)) : Except String (Service × Int) :=
  match validateBackendRef ref routeNamespace with
  | some err => Except.error err
  | none =>
    let svcNsName : NamespacedName := { Namespace := routeNamespace, Name := ref.Name }
    match alistLookup svcNsName services with
    | none => Except.error ("the Service " ++ svcNsName.format ++ " does not exist")
    | some svc => Except.ok (svc, ref.Port.getD 0)

/-- state.BackendRefs (backend_refs.go): the errors, resolved endpoints by
backend name, and backend groups by rule index of one route. -/
structure BackendRefs where
  Errors : List String
  Resolved : List (String × List resolver.Endpoint)
  ByRule : List (Nat × BackendGroup)
  deriving DecidableEq, Repr, Inhabited

/-- newBackendRefs (backend_refs.go). -/
def newBackendRefs : BackendRefs :=
  { Errors := [], Resolved := [], ByRule := [] }

/-- The body of the backend-ref loop of resolveBackendRefsForRoutes
(backend_refs.go): default the weight to 1; on a failed
getServiceAndPortFromRef append an empty-name invalid backend and record
the error; otherwise append a valid backend named
"svcNamespace_svcName_port", resolve the endpoints, record any resolution
error, and store the endpoints under the backend name even on error. -/
def processBackendRef (services : List (NamespacedName × Service))
    (resolve : ServiceResolver) (routeNs : String)
    (acc : List BackendRef × BackendRefs) (ref : v1beta1.HTTPBackendRef) :
    List BackendRef × BackendRefs :=
  let weight := ref.Weight.getD 1
  match getServiceAndPortFromRef ref.BackendRef routeNs services with
  | Except.error err =>
    (acc.1 ++ [{ Name := "", Valid := false, Weight := weight }],
     { acc.2 with Errors := acc.2.Errors ++ [err] })
  | Except.ok (svc, port) =>
    let backendName := svc.Namespace ++ "_" ++ svc.Name ++ "_" ++ toString port
    let res := resolve svc port
    (acc.1 ++ [{ Name := backendName, Valid := true, Weight := weight }],
     { Errors := match res.2 with
         | some err => acc.2.Errors ++ [err]
         | none => acc.2.Errors
       Resolved := alistInsert backendName res.1 acc.2.Resolved
       ByRule := acc.2.ByRule })

/-- The body of the rule loop of resolveBackendRefsForRoutes
(backend_refs.go): process the rule's backend refs and store the resulting
BackendGroup under the rule index. -/
def resolveRuleRefs (services : List (NamespacedName × Service))
    (resolve : ServiceResolver) (r : v1beta1.HTTPRoute) (st : BackendRefs)
    (idx : Nat) (rule : v1beta1.HTTPRouteRule) : BackendRefs :=
  let out := rule.BackendRefs.foldl (processBackendRef services resolve r.Namespace) ([], st)
  { out.2 with
      ByRule := alistInsert idx
        { Source := { Namespace := r.Namespace, Name := r.Name }
          RuleIdx := idx
          Backends := out.1 } out.2.ByRule }

/-- The per-route part of resolveBackendRefsForRoutes (backend_refs.go):
fold the rule loop over the route's rules, starting from newBackendRefs. -/
def resolveBackendRefsForRoute (services : List (NamespacedName × Service))
    (resolve : ServiceResolver) (r : v1beta1.HTTPRoute) : BackendRefs :=
  r.Spec.Rules.enum.foldl
    (fun st p => resolveRuleRefs services resolve r st p.1 p.2) newBackendRefs

/-- The graph node route (graph.go, shape determined by its uses in
configuration.go and backend_refs.go): the source HTTPRoute plus its
resolved BackendRefs. -/
structure Route where
  Source : v1beta1.HTTPRoute
  BackendRefs : BackendRefs
  deriving DecidableEq, Repr, Inhabited

/-- resolveBackendRefsForRoutes (backend_refs.go) over a route collection. -/
def resolveBackendRefsForRoutes (services : List (NamespacedName × Service))
    (resolve : ServiceResolver) (routes : List Route) : List Route :=
  routes.map (fun r =>
    { r with BackendRefs := resolveBackendRefsForRoute services resolve r.Source })

/-- resolveBackendRefs (backend_refs.go): resolve all routes, then collect
one warning per recorded error, formatted
"cannot resolve backend ref: message" and attributed to the route. -/
def resolveBackendRefs (services : List (NamespacedName × Service))
    (resolve : ServiceResolver) (routes : List Route) :
    List Route × List (NamespacedName × String) :=
  let resolved := resolveBackendRefsForRoutes services resolve routes
  (resolved,
   (resolved.map (fun r => r.BackendRefs.Errors.map (fun msg =>
     (({ Namespace := r.Source.Namespace, Name := r.Source.Name } : NamespacedName),
      "cannot resolve backend ref: " ++ msg)))).flatten)

end state

/-- C6: the reference validator rejects a BackendRef exactly when its Kind
is set and not "Service", or its Namespace is set and differs from the
route's namespace, or its Port is absent; each rejection carries its
descriptive message (checked in source order), and a ref violating none of
the conditions is accepted. -/
theorem C6_validate_backend_ref (ref : v1beta1.BackendRef) (routeNs : String) :
    ((state.validateBackendRef ref routeNs).isSome ↔
      ((∃ k, ref.Kind = some k ∧ k ≠ "Service") ∨
       (∃ ns, ref.Namespace = some ns ∧ ns ≠ routeNs) ∨
       ref.Port = none)) ∧
    (∀ k, ref.Kind = some k → k ≠ "Service" →
      state.validateBackendRef ref routeNs =
        some ("the Kind must be Service; got " ++ k)) ∧
    (∀ ns, (ref.Kind = none ∨ ref.Kind = some "Service") →
      ref.Namespace = some ns → ns ≠ routeNs →
      state.validateBackendRef ref routeNs =
        some ("cross-namespace routing is not permitted; namespace " ++ ns ++
          " does not match the HTTPRoute namespace " ++ routeNs)) ∧
    ((ref.Kind = none ∨ ref.Kind = some "Service") →
      (ref.Namespace = none ∨ ref.Namespace = some routeNs) → ref.Port = none →
      state.validateBackendRef ref routeNs = some "port is missing") := by
  refine ⟨?_, ?_, ?_, ?_⟩
  · constructor
    · intro h
      by_cases h1 : ref.Kind ≠ none ∧ ref.Kind ≠ some "Service"
      · left
        match hk : ref.Kind with
        | none => exact absurd hk h1.1
        | some k => exact ⟨k, rfl, fun hs => h1.2 (by rw [hk, hs])⟩
      · by_cases h2 : ref.Namespace ≠ none ∧ ref.Namespace ≠ some routeNs
        · right; left
          match hn : ref.Namespace with
          | none => exact absurd hn h2.1
          | some ns => exact ⟨ns, rfl, fun hs => h2.2 (by rw [hn, hs])⟩
        · right; right
          by_cases h3 : ref.Port = none
          · exact h3
          · unfold state.validateBackendRef at h
            rw [if_neg h1, if_neg h2, if_neg h3] at h
            simp at h
    · intro h
      unfold state.validateBackendRef
      rcases h with ⟨k, hk, hks⟩ | ⟨ns, hn, hns⟩ | hp
      · have h1 : ref.Kind ≠ none ∧ ref.Kind ≠ some "Service" :=
          ⟨by simp [hk], by simp [hk]; exact hks⟩
        rw [if_pos h1]
        rfl
      · by_cases h1 : ref.Kind ≠ none ∧ ref.Kind ≠ some "Service"
        · rw [if_pos h1]; rfl
        · have h2 : ref.Namespace ≠ none ∧ ref.Namespace ≠ some routeNs :=
            ⟨by simp [hn], by simp [hn]; exact hns⟩
          rw [if_neg h1, if_pos h2]
          rfl
      · by_cases h1 : ref.Kind ≠ none ∧ ref.Kind ≠ some "Service"
        · rw [if_pos h1]; rfl
        · by_cases h2 : ref.Namespace ≠ none ∧ ref.Namespace ≠ some routeNs
          · rw [if_neg h1, if_pos h2]; rfl
          · rw [if_neg h1, if_neg h2, if_pos hp]; rfl
  · intro k hk hks
    have h1 : ref.Kind ≠ none ∧ ref.Kind ≠ some "Service" :=
      ⟨by simp [hk], by simp [hk]; exact hks⟩
    unfold state.validateBackendRef
    rw [if_pos h1, hk]
    rfl
  · intro ns hkind hn hns
    have h1 : ¬ (ref.Kind ≠ none ∧ ref.Kind ≠ some "Service") := by
      rcases hkind with h | h <;> simp [h]
    have h2 : ref.Namespace ≠ none ∧ ref.Namespace ≠ some routeNs :=
      ⟨by simp [hn], by simp [hn]; exact hns⟩
    unfold state.validateBackendRef
    rw [if_neg h1, if_pos h2, hn]
    rfl
  · intro hkind hnsp hp
    have h1 : ¬ (ref.Kind ≠ none ∧ ref.Kind ≠ some "Service") := by
      rcases hkind with h | h <;> simp [h]
    have h2 : ¬ (ref.Namespace ≠ none ∧ ref.Namespace ≠ some routeNs) := by
      rcases hnsp with h | h <;> simp [h]
    unfold state.validateBackendRef
    rw [if_neg h1, if_neg h2, if_pos hp]

/-- Witness for C6 at concrete refs: one per rejection reason and one
accepted ref. -/
theorem C6_validate_backend_ref_witness :
    (state.validateBackendRef ⟨some "Pod", "svc", none, some 80⟩ "test").isSome ∧
    state.validateBackendRef ⟨some "Pod", "svc", none, some 80⟩ "test" =
      some "the Kind must be Service; got Pod" ∧
    state.validateBackendRef ⟨none, "svc", some "other", some 80⟩ "test" =
      some ("cross-namespace routing is not permitted; namespace other" ++
        " does not match the HTTPRoute namespace test") ∧
    state.validateBackendRef ⟨none, "svc", none, none⟩ "test" = some "port is missing" ∧
    state.validateBackendRef ⟨some "Service", "svc", some "test", some 80⟩ "test" = none := by
  refine ⟨?_, ?_, ?_, ?_, ?_⟩
  · exact (C6_validate_backend_ref ⟨some "Pod", "svc", none, some 80⟩ "test").1.mpr
      (Or.inl ⟨"Pod", rfl, by decide⟩)
  · exact (C6_validate_backend_ref ⟨some "Pod", "svc", none, some 80⟩ "test").2.1
      "Pod" rfl (by decide)
  · have h := (C6_validate_backend_ref ⟨none, "svc", some "other", some 80⟩ "test").2.2.1
      "other" (Or.inl rfl) rfl (by decide)
    rw [h]
    rfl
  · exact (C6_validate_backend_ref ⟨none, "svc", none, none⟩ "test").2.2.2
      (Or.inl rfl) (Or.inl rfl) rfl
  · rfl

/-- Looking a key up right after inserting it yields the inserted value. -/
theorem alistLookup_insert_self {κ α : Type} [DecidableEq κ] (k : κ) (v : α)
    (m : List (κ × α)) : alistLookup k (alistInsert k v m) = some v := by
  induction m with
  | nil => simp [alistInsert, alistLookup]
  | cons p rest ih =>
    by_cases h : p.1 = k
    · simp [alistInsert, alistLookup, h]
    · simp [alistInsert, alistLookup, h, ih]

/-- Inserting under a different key does not change a lookup. -/
theorem alistLookup_insert_ne {κ α : Type} [DecidableEq κ] (k k' : κ) (v : α)
    (m : List (κ × α)) (h : k' ≠ k) :
    alistLookup k (alistInsert k' v m) = alistLookup k m := by
  induction m with
  | nil => simp [alistInsert, alistLookup, h]
  | cons p rest ih =>
    by_cases hp : p.1 = k'
    · simp [alistInsert, alistLookup, hp, h]
    · simp only [alistInsert, hp, if_false]
      by_cases hk : p.1 = k
      · simp [alistLookup, hk]
      · simp [alistLookup, hk, ih]

/-- Insertion never makes a defined lookup undefined. -/
theorem alistLookup_insert_isSome {κ α : Type} [DecidableEq κ] (k k' : κ) (v : α)
    (m : List (κ × α)) (h : (alistLookup k m).isSome) :
    (alistLookup k (alistInsert k' v m)).isSome := by
  by_cases hk : k' = k
  · rw [hk, alistLookup_insert_self]; rfl
  · rw [alistLookup_insert_ne k k' v m hk]; exact h

namespace state

/-- The backend slot produced for one backendRef by the loop body of
resolveBackendRefsForRoutes: a rejected ref yields the empty-name invalid
slot with the original weight, an accepted ref the valid slot named
"svcNamespace_svcName_port". -/
def backendSlotOf (services : List (NamespacedName × Service)) (routeNs : String)
    (ref : v1beta1.HTTPBackendRef) : BackendRef :=
  let weight := ref.Weight.getD 1
  match getServiceAndPortFromRef ref.BackendRef routeNs services with
  | Except.error _ => { Name := "", Valid := false, Weight := weight }
  | Except.ok (svc, port) =>
    { Name := svc.Namespace ++ "_" ++ svc.Name ++ "_" ++ toString port
      Valid := true, Weight := weight }

end state

/-- The backends accumulated by the backend-ref loop are exactly the slots
of the refs, appended in order; the slot list does not depend on the
threaded error/resolution state. -/
theorem processBackendRef_foldl_fst (services : List (state.NamespacedName × state.Service))
    (resolve : state.ServiceResolver) (routeNs : String)
    (refs : List v1beta1.HTTPBackendRef) (acc0 : List state.BackendRef)
    (st0 : state.BackendRefs) :
    (refs.foldl (state.processBackendRef services resolve routeNs) (acc0, st0)).1 =
      acc0 ++ refs.map (state.backendSlotOf services routeNs) := by
  induction refs generalizing acc0 st0 with
  | nil => simp
  | cons ref rest ih =>
    cases hres : state.getServiceAndPortFromRef ref.BackendRef routeNs services with
    | error err =>
      simp only [List.foldl_cons, List.map_cons]
      rw [show state.processBackendRef services resolve routeNs (acc0, st0) ref =
        (acc0 ++ [{ Name := "", Valid := false, Weight := ref.Weight.getD 1 }],
         { st0 with Errors := st0.Errors ++ [err] }) by
          simp [state.processBackendRef, hres]]
      rw [ih]
      simp [state.backendSlotOf, hres]
    | ok svcport =>
      obtain ⟨svc, port⟩ := svcport
      simp only [List.foldl_cons, List.map_cons]
      rw [show state.processBackendRef services resolve routeNs (acc0, st0) ref =
        (acc0 ++ [{ Name := svc.Namespace ++ "_" ++ svc.Name ++ "_" ++ toString port,
                    Valid := true, Weight := ref.Weight.getD 1 }],
         { Errors := match (resolve svc port).2 with
             | some err => st0.Errors ++ [err]
             | none => st0.Errors
           Resolved := alistInsert (svc.Namespace ++ "_" ++ svc.Name ++ "_" ++ toString port)
             (resolve svc port).1 st0.Resolved
           ByRule := st0.ByRule }) by
          simp [state.processBackendRef, hres]]
      rw [ih]
      simp [state.backendSlotOf, hres]

/-- The error list, resolved map and group map threaded through the
backend-ref loop: errors only grow, resolved keys never disappear, the
group map is untouched, and for each processed ref its validation error is
recorded (rejected refs) or its endpoints are recorded under its backend
name with any resolution error recorded (accepted refs). -/
theorem processBackendRef_foldl_snd
    (services : List (state.NamespacedName × state.Service))
    (resolve : state.ServiceResolver) (routeNs : String)
    (refs : List v1beta1.HTTPBackendRef) (acc0 : List state.BackendRef)
    (st0 : state.BackendRefs) :
    (∃ l, (refs.foldl (state.processBackendRef services resolve routeNs) (acc0, st0)).2.Errors =
      st0.Errors ++ l) ∧
    (∀ k, (alistLookup k st0.Resolved).isSome →
      (alistLookup k (refs.foldl (state.processBackendRef services resolve routeNs)
        (acc0, st0)).2.Resolved).isSome) ∧
    (refs.foldl (state.processBackendRef services resolve routeNs) (acc0, st0)).2.ByRule =
      st0.ByRule ∧
    (∀ (j : Nat) (bref : v1beta1.HTTPBackendRef), refs[j]? = some bref →
      (∀ err, state.getServiceAndPortFromRef bref.BackendRef routeNs services =
          Except.error err →
        err ∈ (refs.foldl (state.processBackendRef services resolve routeNs)
          (acc0, st0)).2.Errors) ∧
      (∀ svc port, state.getServiceAndPortFromRef bref.BackendRef routeNs services =
          Except.ok (svc, port) →
        (alistLookup (svc.Namespace ++ "_" ++ svc.Name ++ "_" ++ toString port)
          (refs.foldl (state.processBackendRef services resolve routeNs)
            (acc0, st0)).2.Resolved).isSome ∧
        (∀ e, (resolve svc port).2 = some e →
          e ∈ (refs.foldl (state.processBackendRef services resolve routeNs)
            (acc0, st0)).2.Errors))) := by
  induction refs generalizing acc0 st0 with
  | nil =>
    refine ⟨⟨[], by simp⟩, fun k h => by simpa using h, by simp, ?_⟩
    intro j ref hj
    simp at hj
  | cons ref rest ih =>
    cases hres : state.getServiceAndPortFromRef ref.BackendRef routeNs services with
    | error err =>
      have hstep : state.processBackendRef services resolve routeNs (acc0, st0) ref =
          (acc0 ++ [{ Name := "", Valid := false, Weight := ref.Weight.getD 1 }],
           { st0 with Errors := st0.Errors ++ [err] }) := by
        simp [state.processBackendRef, hres]
      obtain ⟨⟨l, hl⟩, hmono, hbyrule, hidx⟩ := ih
        (acc0 ++ [{ Name := "", Valid := false, Weight := ref.Weight.getD 1 }])
        { st0 with Errors := st0.Errors ++ [err] }
      refine ⟨⟨[err] ++ l, ?_⟩, ?_, ?_, ?_⟩
      · simp only [List.foldl_cons, hstep]
        rw [hl]
        simp
      · intro k hk
        simp only [List.foldl_cons, hstep]
        exact hmono k hk
      · simp only [List.foldl_cons, hstep]
        exact hbyrule
      · intro j r hj
        cases j with
        | zero =>
          simp only [List.getElem?_cons_zero, Option.some.injEq] at hj
          subst hj
          constructor
          · intro err' herr'
            rw [hres] at herr'
            cases herr'
            simp only [List.foldl_cons, hstep]
            rw [hl]
            simp
          · intro svc port hok
            rw [hres] at hok
            cases hok
        | succ j =>
          simp only [List.getElem?_cons_succ] at hj
          have h := hidx j r hj
          simpa only [List.foldl_cons, hstep] using h
    | ok svcport =>
      obtain ⟨svc, port⟩ := svcport
      have hstep : state.processBackendRef services resolve routeNs (acc0, st0) ref =
          (acc0 ++ [{ Name := svc.Namespace ++ "_" ++ svc.Name ++ "_" ++ toString port,
                      Valid := true, Weight := ref.Weight.getD 1 }],
           { Errors := match (resolve svc port).2 with
               | some e => st0.Errors ++ [e]
               | none => st0.Errors
             Resolved := alistInsert (svc.Namespace ++ "_" ++ svc.Name ++ "_" ++ toString port)
               (resolve svc port).1 st0.Resolved
             ByRule := st0.ByRule }) := by
        simp [state.processBackendRef, hres]
      obtain ⟨⟨l, hl⟩, hmono, hbyrule, hidx⟩ := ih
        (acc0 ++ [{ Name := svc.Namespace ++ "_" ++ svc.Name ++ "_" ++ toString port,
                    Valid := true, Weight := ref.Weight.getD 1 }])
        { Errors := match (resolve svc port).2 with
            | some e => st0.Errors ++ [e]
            | none => st0.Errors
          Resolved := alistInsert (svc.Namespace ++ "_" ++ svc.Name ++ "_" ++ toString port)
            (resolve svc port).1 st0.Resolved
          ByRule := st0.ByRule }
      have herrext : ∃ l2, (match (resolve svc port).2 with
          | some e => st0.Errors ++ [e]
          | none => st0.Errors) = st0.Errors ++ l2 := by
        cases h2 : (resolve svc port).2 with
        | some e => exact ⟨[e], by simp⟩
        | none => exact ⟨[], by simp⟩
      refine ⟨?_, ?_, ?_, ?_⟩
      · obtain ⟨l2, hl2⟩ := herrext
        refine ⟨l2 ++ l, ?_⟩
        simp only [List.foldl_cons, hstep]
        rw [hl, hl2]
        simp
      · intro k hk
        simp only [List.foldl_cons, hstep]
        exact hmono k (alistLookup_insert_isSome _ _ _ _ hk)
      · simp only [List.foldl_cons, hstep]
        exact hbyrule
      · intro j r hj
        cases j with
        | zero =>
          simp only [List.getElem?_cons_zero, Option.some.injEq] at hj
          subst hj
          constructor
          · intro err' herr'
            rw [hres] at herr'
            cases herr'
          · intro svc' port' hok
            rw [hres] at hok
            cases hok
            constructor
            · simp only [List.foldl_cons, hstep]
              exact hmono _ (by
                rw [alistLookup_insert_self]
                rfl)
            · intro e he
              simp only [List.foldl_cons, hstep]
              rw [hl]
              rw [he]
              simp
        | succ j =>
          simp only [List.getElem?_cons_succ] at hj
          have h := hidx j r hj
          simpa only [List.foldl_cons, hstep] using h

/-- The rule loop of resolveBackendRefsForRoutes, folded from rule index n:
errors only grow, resolved keys never disappear, group-map entries below n
are untouched, and every rule at offset i gets a group under index n+i
whose backends are exactly the slots of its backend refs, with all
validation and resolution errors recorded and every accepted backend's
endpoints recorded under its name. -/
theorem resolveRuleRefs_foldl_spec
    (services : List (state.NamespacedName × state.Service))
    (resolve : state.ServiceResolver) (r : v1beta1.HTTPRoute)
    (rules : List v1beta1.HTTPRouteRule) :
    ∀ (n : Nat) (st : state.BackendRefs),
    (∃ l, ((List.enumFrom n rules).foldl
        (fun st p => state.resolveRuleRefs services resolve r st p.1 p.2) st).Errors =
      st.Errors ++ l) ∧
    (∀ k, (alistLookup k st.Resolved).isSome →
      (alistLookup k ((List.enumFrom n rules).foldl
        (fun st p => state.resolveRuleRefs services resolve r st p.1 p.2) st).Resolved).isSome) ∧
    (∀ k, k < n → alistLookup k ((List.enumFrom n rules).foldl
        (fun st p => state.resolveRuleRefs services resolve r st p.1 p.2) st).ByRule =
      alistLookup k st.ByRule) ∧
    (∀ (i : Nat) (rule : v1beta1.HTTPRouteRule), rules[i]? = some rule →
      ∃ group, alistLookup (n + i) ((List.enumFrom n rules).foldl
          (fun st p => state.resolveRuleRefs services resolve r st p.1 p.2) st).ByRule =
        some group ∧
        group.Source = { Namespace := r.Namespace, Name := r.Name } ∧
        group.RuleIdx = n + i ∧
        group.Backends = rule.BackendRefs.map (state.backendSlotOf services r.Namespace) ∧
        (∀ (j : Nat) (bref : v1beta1.HTTPBackendRef), rule.BackendRefs[j]? = some bref →
          (∀ err, state.getServiceAndPortFromRef bref.BackendRef r.Namespace services =
              Except.error err →
            err ∈ ((List.enumFrom n rules).foldl
              (fun st p => state.resolveRuleRefs services resolve r st p.1 p.2) st).Errors) ∧
          (∀ svc port, state.getServiceAndPortFromRef bref.BackendRef r.Namespace services =
              Except.ok (svc, port) →
            (alistLookup (svc.Namespace ++ "_" ++ svc.Name ++ "_" ++ toString port)
              ((List.enumFrom n rules).foldl
                (fun st p => state.resolveRuleRefs services resolve r st p.1 p.2) st).Resolved).isSome ∧
            (∀ e, (resolve svc port).2 = some e →
              e ∈ ((List.enumFrom n rules).foldl
                (fun st p => state.resolveRuleRefs services resolve r st p.1 p.2) st).Errors)))) := by
  induction rules with
  | nil =>
    intro n st
    refine ⟨⟨[], by simp⟩, fun k h => by simpa using h, fun k _ => by simp, ?_⟩
    intro i rule hi
    simp at hi
  | cons rule rest ih =>
    intro n st
    have hout1 := processBackendRef_foldl_fst services resolve r.Namespace
      rule.BackendRefs [] st
    obtain ⟨⟨l1, herr1⟩, hmono1, hbyrule1, hidx1⟩ :=
      processBackendRef_foldl_snd services resolve r.Namespace rule.BackendRefs [] st
    have hstep : state.resolveRuleRefs services resolve r st n rule =
        { Errors := (rule.BackendRefs.foldl
            (state.processBackendRef services resolve r.Namespace) ([], st)).2.Errors
          Resolved := (rule.BackendRefs.foldl
            (state.processBackendRef services resolve r.Namespace) ([], st)).2.Resolved
          ByRule := alistInsert n
            { Source := { Namespace := r.Namespace, Name := r.Name }
              RuleIdx := n
              Backends := (rule.BackendRefs.foldl
                (state.processBackendRef services resolve r.Namespace) ([], st)).1 }
            (rule.BackendRefs.foldl
              (state.processBackendRef services resolve r.Namespace) ([], st)).2.ByRule } := by
      rfl
    set innerOut := rule.BackendRefs.foldl
      (state.processBackendRef services resolve r.Namespace) ([], st) with hinner
    set group1 : state.BackendGroup :=
      { Source := { Namespace := r.Namespace, Name := r.Name }
        RuleIdx := n
        Backends := innerOut.1 } with hgroup1
    set st1 : state.BackendRefs :=
      { Errors := innerOut.2.Errors
        Resolved := innerOut.2.Resolved
        ByRule := alistInsert n group1 innerOut.2.ByRule } with hst1
    have hfold : (List.enumFrom n (rule :: rest)).foldl
        (fun st p => state.resolveRuleRefs services resolve r st p.1 p.2) st =
      (List.enumFrom (n + 1) rest).foldl
        (fun st p => state.resolveRuleRefs services resolve r st p.1 p.2) st1 := by
      simp only [List.enumFrom, List.foldl_cons]
      rw [hstep]
    obtain ⟨⟨l2, herr2⟩, hmono2, hlt2, hidx2⟩ := ih (n + 1) st1
    rw [hfold]
    refine ⟨⟨l1 ++ l2, ?_⟩, ?_, ?_, ?_⟩
    · rw [herr2]
      show innerOut.2.Errors ++ l2 = st.Errors ++ (l1 ++ l2)
      rw [herr1]
      simp
    · intro k hk
      exact hmono2 k (hmono1 k hk)
    · intro k hkn
      rw [hlt2 k (by omega)]
      show alistLookup k (alistInsert n group1 innerOut.2.ByRule) = alistLookup k st.ByRule
      rw [alistLookup_insert_ne k n group1 _ (by omega), hbyrule1]
    · intro i rl hi
      cases i with
      | zero =>
        simp only [List.getElem?_cons_zero, Option.some.injEq] at hi
        subst hi
        refine ⟨group1, ?_, rfl, rfl, ?_, ?_⟩
        · rw [Nat.add_zero, hlt2 n (by omega)]
          show alistLookup n (alistInsert n group1 innerOut.2.ByRule) = some group1
          exact alistLookup_insert_self n group1 _
        · show innerOut.1 = rule.BackendRefs.map (state.backendSlotOf services r.Namespace)
          rw [hout1]
          simp
        · intro j bref hj
          obtain ⟨herrpart, hokpart⟩ := hidx1 j bref hj
          constructor
          · intro err herr
            rw [herr2]
            exact List.mem_append_left _ (herrpart err herr)
          · intro svc port hok
            obtain ⟨hsome, herrs⟩ := hokpart svc port hok
            refine ⟨hmono2 _ hsome, ?_⟩
            intro e he
            rw [herr2]
            exact List.mem_append_left _ (herrs e he)
      | succ i =>
        simp only [List.getElem?_cons_succ] at hi
        have h := hidx2 i rl hi
        have harith : n + 1 + i = n + (i + 1) := by omega
        rw [harith] at h
        exact h

/-- C5: for every HTTPRoute rule the resolver produces one backend slot per
backendRef, in order: a rejected ref yields the empty-name invalid slot
with the original weight and its validation message recorded in the
route's error list; an accepted ref yields a valid slot named
"svcNamespace_svcName_port" whose (possibly empty) endpoint set is
recorded under that name even when endpoint resolution fails (the
resolution error only being recorded as a message); and every recorded
message becomes a route warning prefixed "cannot resolve backend ref: ". -/
theorem C5_backend_resolution
    (services : List (state.NamespacedName × state.Service))
    (resolve : state.ServiceResolver) (r : v1beta1.HTTPRoute) :
    (∀ (i : Nat) (rule : v1beta1.HTTPRouteRule), r.Spec.Rules[i]? = some rule →
      ∃ group,
        alistLookup i (state.resolveBackendRefsForRoute services resolve r).ByRule =
          some group ∧
        group.Source = { Namespace := r.Namespace, Name := r.Name } ∧
        group.RuleIdx = i ∧
        group.Backends.length = rule.BackendRefs.length ∧
        (∀ (j : Nat) (bref : v1beta1.HTTPBackendRef), rule.BackendRefs[j]? = some bref →
          (∀ err, state.getServiceAndPortFromRef bref.BackendRef r.Namespace services =
              Except.error err →
            group.Backends[j]? =
              some { Name := "", Valid := false, Weight := bref.Weight.getD 1 } ∧
            err ∈ (state.resolveBackendRefsForRoute services resolve r).Errors) ∧
          (∀ svc port, state.getServiceAndPortFromRef bref.BackendRef r.Namespace services =
              Except.ok (svc, port) →
            group.Backends[j]? =
              some { Name := svc.Namespace ++ "_" ++ svc.Name ++ "_" ++ toString port
                     Valid := true, Weight := bref.Weight.getD 1 } ∧
            (alistLookup (svc.Namespace ++ "_" ++ svc.Name ++ "_" ++ toString port)
              (state.resolveBackendRefsForRoute services resolve r).Resolved).isSome ∧
            (∀ e, (resolve svc port).2 = some e →
              e ∈ (state.resolveBackendRefsForRoute services resolve r).Errors)))) ∧
    (∀ (routes : List state.Route) (rt : state.Route),
      rt ∈ (state.resolveBackendRefs services resolve routes).1 →
      ∀ msg, msg ∈ rt.BackendRefs.Errors →
        (({ Namespace := rt.Source.Namespace, Name := rt.Source.Name } : state.NamespacedName),
          "cannot resolve backend ref: " ++ msg) ∈
          (state.resolveBackendRefs services resolve routes).2) := by
  constructor
  · intro i rule hi
    obtain ⟨-, -, -, hidx⟩ :=
      resolveRuleRefs_foldl_spec services resolve r r.Spec.Rules 0 state.newBackendRefs
    obtain ⟨group, hg, hsrc, hruleidx, hbackends, hj⟩ := hidx i rule hi
    rw [Nat.zero_add] at hg hruleidx
    refine ⟨group, hg, hsrc, hruleidx, ?_, ?_⟩
    · rw [hbackends, List.length_map]
    · intro j bref hjref
      obtain ⟨herrpart, hokpart⟩ := hj j bref hjref
      constructor
      · intro err herr
        refine ⟨?_, herrpart err herr⟩
        rw [hbackends, List.getElem?_map, hjref]
        simp [state.backendSlotOf, herr]
      · intro svc port hok
        obtain ⟨hsome, herrs⟩ := hokpart svc port hok
        refine ⟨?_, hsome, herrs⟩
        rw [hbackends, List.getElem?_map, hjref]
        simp [state.backendSlotOf, hok]
  · intro routes rt hrt msg hmsg
    simp only [state.resolveBackendRefs] at hrt ⊢
    refine List.mem_flatten.mpr ⟨rt.BackendRefs.Errors.map (fun m =>
      (({ Namespace := rt.Source.Namespace, Name := rt.Source.Name } : state.NamespacedName),
        "cannot resolve backend ref: " ++ m)), ?_, ?_⟩
    · exact List.mem_map.mpr ⟨rt, hrt, rfl⟩
    · exact List.mem_map.mpr ⟨msg, hmsg, rfl⟩

/-- The services, resolver and route of the specification's scenario S4
extended with a second, resolvable backend: the first backendRef targets
the missing Service test/dne, the second the existing Service test/svc1. -/
def c5Services : List (state.NamespacedName × state.Service) :=
  [({ Namespace := "test", Name := "svc1" }, { Namespace := "test", Name := "svc1" })]

/-- A resolver that always succeeds with one endpoint. -/
def c5Resolve : state.ServiceResolver :=
  fun _ _ => ([{ Address := "10.0.0.1", Port := 8080 }], none)

/-- The S4 route: namespace test, one rule, backendRefs [dne:80, svc1:80]. -/
def c5Route : v1beta1.HTTPRoute :=
  { Namespace := "test", Name := "hr"
    Spec := { Hostnames := ["foo.example.com"]
              Rules := [{ Matches := [], Filters := []
                          BackendRefs := [
                            { BackendRef := { Kind := none, Name := "dne",
                                              Namespace := none, Port := some 80 }
                              Weight := none },
                            { BackendRef := { Kind := none, Name := "svc1",
                                              Namespace := none, Port := some 80 }
                              Weight := none }] }] } }

/-- Witness for C5 on scenario S4: the rejected slot keeps its position and
weight, the accepted slot is named test_svc1_80 with endpoints recorded,
and the warning carries the exact message from the claim. -/
theorem C5_backend_resolution_witness :
    ∃ group,
      alistLookup 0 (state.resolveBackendRefsForRoute c5Services c5Resolve c5Route).ByRule =
        some group ∧
      group.Backends[0]? = some { Name := "", Valid := false, Weight := 1 } ∧
      group.Backends[1]? = some { Name := "test_svc1_80", Valid := true, Weight := 1 } ∧
      "the Service test/dne does not exist" ∈
        (state.resolveBackendRefsForRoute c5Services c5Resolve c5Route).Errors ∧
      (alistLookup "test_svc1_80"
        (state.resolveBackendRefsForRoute c5Services c5Resolve c5Route).Resolved).isSome ∧
      (({ Namespace := "test", Name := "hr" } : state.NamespacedName),
        "cannot resolve backend ref: the Service test/dne does not exist") ∈
        (state.resolveBackendRefs c5Services c5Resolve
          [{ Source := c5Route, BackendRefs := state.newBackendRefs }]).2 := by
  obtain ⟨hrule, hwarn⟩ := C5_backend_resolution c5Services c5Resolve c5Route
  obtain ⟨group, hg, hsrc, hruleidx, hlen, hj⟩ :=
    hrule 0 { Matches := [], Filters := []
              BackendRefs := [
                { BackendRef := { Kind := none, Name := "dne",
                                  Namespace := none, Port := some 80 }
                  Weight := none },
                { BackendRef := { Kind := none, Name := "svc1",
                                  Namespace := none, Port := some 80 }
                  Weight := none }] } rfl
  obtain ⟨herrpart, -⟩ := hj 0
    { BackendRef := { Kind := none, Name := "dne", Namespace := none, Port := some 80 }
      Weight := none } rfl
  obtain ⟨-, hokpart⟩ := hj 1
    { BackendRef := { Kind := none, Name := "svc1", Namespace := none, Port := some 80 }
      Weight := none } rfl
  obtain ⟨hslot0, herr0⟩ := herrpart "the Service test/dne does not exist" rfl
  obtain ⟨hslot1, hsome1, -⟩ := hokpart { Namespace := "test", Name := "svc1" } 80 rfl
  refine ⟨group, hg, hslot0, hslot1, herr0, hsome1, ?_⟩
  have hmem := hwarn [{ Source := c5Route, BackendRefs := state.newBackendRefs }]
    { Source := c5Route
      BackendRefs := state.resolveBackendRefsForRoute c5Services c5Resolve c5Route }
    (by simp [state.resolveBackendRefs, state.resolveBackendRefsForRoutes])
    "the Service test/dne does not exist" herr0
  exact hmem

namespace state

/-- wildcardHostname (configuration.go). -/
def wildcardHostname : String := "~^"

/-- getHostname (graph.go; shape determined by its use in
getListenerHostname): the dereferenced hostname, or "" for nil. -/
def getHostname (h : Option String) : String := h.getD ""

/-- getListenerHostname (configuration.go): the listener's hostname, or the
wildcard sentinel when it has none. -/
def getListenerHostname (h : Option String) : String :=
  let name := getHostname h
  if name = "" then wildcardHostname else name

/-- The relevant fields of the v1beta1.Listener carried by a graph
listener node. -/
structure ListenerSource where
  Hostname : Option String
  Protocol : v1beta1.ProtocolType
  deriving DecidableEq, Repr, Inhabited

/-- The graph listener node (graph.go; shape determined by its uses in
configuration.go): validity, bound routes keyed by namespaced name, the
accepted-hostname set, and the secret path for HTTPS listeners. -/
structure Listener where
  Source : ListenerSource
  Valid : Bool
  Routes : List (NamespacedName × Route)
  AcceptedHostnames : List String
  SecretPath : String
  deriving DecidableEq, Repr, Inhabited

/-- The graph gatewayClass node (graph.go): only validity is read by
buildConfiguration. -/
structure GatewayClass where
  Valid : Bool
  deriving DecidableEq, Repr, Inhabited

/-- The graph gateway node (graph.go): its listener table keyed by section
name. -/
structure Gateway where
  Listeners : List (String × Listener)
  deriving DecidableEq, Repr, Inhabited

/-- The binding graph (graph.go): the selected GatewayClass and Gateway,
both optional. -/
structure Graph where
  GatewayClass : Option GatewayClass
  Gateway : Option Gateway
  deriving DecidableEq, Repr, Inhabited

/-- hostPathRules (configuration.go): per-hostname path-rule maps, the
listener serving each hostname, and the HTTPS listeners seen. -/
structure hostPathRules where
  rulesPerHost : List (String × List (String × PathRule))
  listenersForHost : List (String × Listener)
  listeners : List Listener
  deriving DecidableEq, Repr, Inhabited

/-- newHostPathRules (configuration.go). -/
def newHostPathRules : hostPathRules :=
  { rulesPerHost := [], listenersForHost := [], listeners := [] }

/-- sortMatchRules. Modelled from the spec: the source file defining this
sort is not under src/; per spec 4.E the MatchRules under one path are
ordered by (a) route creation timestamp, (b) lexicographic namespaced
name, (c) ascending rule and match indices. -/
def matchRuleLe (a b : MatchRule) : Bool :=
  if a.Source.CreationTimestamp = b.Source.CreationTimestamp then
    if a.Source.Namespace = b.Source.Namespace then
      if a.Source.Name = b.Source.Name then
        if a.RuleIdx = b.RuleIdx then a.MatchIdx ≤ b.MatchIdx
        else a.RuleIdx ≤ b.RuleIdx
      else a.Source.Name ≤ b.Source.Name
    else a.Source.Namespace ≤ b.Source.Namespace
  else a.Source.CreationTimestamp ≤ b.Source.CreationTimestamp

/-- sortMatchRules. Modelled from the spec: sorts the match rules of one
path rule by the 4.E tie-break order. -/
def sortMatchRules (ms : List MatchRule) : List MatchRule :=
  ms.mergeSort matchRuleLe

/-- The rulesPerHost update at the heart of upsertListener
(configuration.go): read the path rule for (hostname, path), defaulting to
a fresh rule carrying the path, append the MatchRule, and store it back. -/
def upsertMatchRule (rph : List (String × List (String × PathRule)))
    (h path : String) (mr : MatchRule) : List (String × List (String × PathRule)) :=
  let inner := (alistLookup h rph).getD []
  let pr : PathRule := match alistLookup path inner with
    | none => { Path := path, MatchRules := [] }
    | some pr => pr
  alistInsert h (alistInsert path { pr with MatchRules := pr.MatchRules ++ [mr] } inner) rph

/-- hostPathRules.upsertListener (configuration.go): HTTPS listeners are
remembered for default-server generation; for each bound route, the
accepted hostnames get a listener entry and an (initially empty) rule map,
and every (rule, match) pair appends a MatchRule under
(hostname, match path). -/
def upsertListener (hpr : hostPathRules) (l : Listener) : hostPathRules :=
  let hpr := if l.Source.Protocol = v1beta1.ProtocolType.HTTPS then
      { hpr with listeners := hpr.listeners ++ [l] } else hpr
  l.Routes.foldl (fun hpr p =>
    let r := p.2
    let hostnames := r.Source.Spec.Hostnames.filter (fun h => h ∈ l.AcceptedHostnames)
    let hpr := hostnames.foldl (fun hpr h =>
      { hpr with
          listenersForHost := alistInsert h l hpr.listenersForHost
          rulesPerHost := match alistLookup h hpr.rulesPerHost with
            | none => alistInsert h [] hpr.rulesPerHost
            | some _ => hpr.rulesPerHost }) hpr
    r.Source.Spec.Rules.enum.foldl (fun hpr q =>
      let filters := createFilters q.2.Filters
      hostnames.foldl (fun hpr h =>
        q.2.Matches.enum.foldl (fun hpr mq =>
          let mr : MatchRule :=
            { MatchIdx := mq.1, RuleIdx := q.1, Source := r.Source,
              BackendGroup := (alistLookup q.1 r.BackendRefs.ByRule).getD default,
              Filters := filters }
          { hpr with rulesPerHost :=
              upsertMatchRule hpr.rulesPerHost h (getPath mq.2.Path) mr }) hpr) hpr) hpr) hpr

/-- hostPathRules.buildServers (configuration.go): one server per hostname
of rulesPerHost carrying its sorted path rules and the listener's SSL
path (the Go code panics when the listener for a hostname is missing;
that case is unreachable for tables built by upsertListener and is
modelled by skipping the entry), followed by one default server per
route-less or wildcard HTTPS listener, all sorted by hostname. -/
def hostPathRules.buildServers (hpr : hostPathRules) : List VirtualServer :=
  let servers := hpr.rulesPerHost.filterMap (fun p =>
    match alistLookup p.1 hpr.listenersForHost with
    | none => none
    | some l => some
      { Hostname := p.1
        PathRules := (p.2.map (fun q =>
          { q.2 with MatchRules := sortMatchRules q.2.MatchRules })).mergeSort
            (fun a b => a.Path ≤ b.Path)
        SSL := if l.SecretPath ≠ "" then some { CertificatePath := l.SecretPath } else none })
  let defaults := hpr.listeners.filterMap (fun l =>
    let hostname := getListenerHostname l.Source.Hostname
    if l.Routes.length = 0 ∨ hostname = wildcardHostname then
      some { Hostname := hostname, PathRules := []
             SSL := if l.SecretPath ≠ "" then some { CertificatePath := l.SecretPath } else none }
    else none)
  (servers ++ defaults).mergeSort (fun a b => a.Hostname ≤ b.Hostname)

/-- buildServers (configuration.go): partition the valid listeners by
protocol, upsert each into its bucket, and build both server lists. -/
def buildServers (listeners : List (String × Listener)) :
    List VirtualServer × List VirtualServer :=
  let bucket := fun (proto : v1beta1.ProtocolType) =>
    listeners.foldl (fun hpr p =>
      if p.2.Valid && p.2.Source.Protocol == proto then upsertListener hpr p.2 else hpr)
      newHostPathRules
  ((bucket v1beta1.ProtocolType.HTTP).buildServers,
   (bucket v1beta1.ProtocolType.HTTPS).buildServers)

/-- buildUpstreams (configuration.go): union of the resolved backend names
of all routes of valid listeners, first occurrence winning, sorted by
name. -/
def buildUpstreams (listeners : List (String × Listener)) : List Upstream :=
  let uniqueUpstreams := listeners.foldl (fun m p =>
    if p.2.Valid then
      p.2.Routes.foldl (fun m q =>
        q.2.BackendRefs.Resolved.foldl (fun m e =>
          match alistLookup e.1 m with
          | none => alistInsert e.1 ({ Name := e.1, Endpoints := e.2 } : Upstream) m
          | some _ => m) m) m
    else m) []
  (uniqueUpstreams.map Prod.snd).mergeSort (fun a b => a.Name ≤ b.Name)

/-- buildBackendGroups (configuration.go): the backend groups of all routes
of valid listeners, deduplicated by group name, sorted by group name. -/
def buildBackendGroups (listeners : List (String × Listener)) : List BackendGroup :=
  let uniqueGroups := listeners.foldl (fun m p =>
    if p.2.Valid then
      p.2.Routes.foldl (fun m q =>
        q.2.BackendRefs.ByRule.foldl (fun m e =>
          match alistLookup e.2.GroupName m with
          | none => alistInsert e.2.GroupName e.2 m
          | some _ => m) m) m
    else m) []
  (uniqueGroups.map Prod.snd).mergeSort (fun a b => a.GroupName ≤ b.GroupName)

/-- buildConfiguration (configuration.go): an absent or invalid
GatewayClass, or an absent Gateway, yields the empty Configuration;
otherwise the upstreams, servers and backend groups are built from the
gateway's listeners. -/
def buildConfiguration (g : Graph) : Configuration :=
  match g.GatewayClass with
  | none => { HTTPServers := [], SSLServers := [], Upstreams := [], BackendGroups := [] }
  | some gc =>
    if !gc.Valid then
      { HTTPServers := [], SSLServers := [], Upstreams := [], BackendGroups := [] }
    else
      match g.Gateway with
      | none => { HTTPServers := [], SSLServers := [], Upstreams := [], BackendGroups := [] }
      | some gw =>
        { HTTPServers := (buildServers gw.Listeners).1
          SSLServers := (buildServers gw.Listeners).2
          Upstreams := buildUpstreams gw.Listeners
          BackendGroups := buildBackendGroups gw.Listeners }

end state

/-- C4: when the graph has no GatewayClass, an invalid GatewayClass, or no
Gateway, buildConfiguration returns a Configuration whose four collections
are all empty. -/
theorem C4_empty_configuration (g : state.Graph)
    (h : g.GatewayClass = none ∨
      (∃ gc, g.GatewayClass = some gc ∧ gc.Valid = false) ∨
      g.Gateway = none) :
    (state.buildConfiguration g).HTTPServers = [] ∧
    (state.buildConfiguration g).SSLServers = [] ∧
    (state.buildConfiguration g).Upstreams = [] ∧
    (state.buildConfiguration g).BackendGroups = [] := by
  rcases h with h | ⟨gc, hgc, hvalid⟩ | h
  · simp [state.buildConfiguration, h]
  · simp [state.buildConfiguration, hgc, hvalid]
  · cases hc : g.GatewayClass with
    | none => simp [state.buildConfiguration, hc]
    | some gc =>
      cases hv : gc.Valid with
      | false => simp [state.buildConfiguration, hc, hv]
      | true => simp [state.buildConfiguration, hc, hv, h]

/-- Witness for C4 at the graph with a valid class but no gateway. -/
theorem C4_empty_configuration_witness :
    ((state.Graph.mk (some { Valid := true }) none).Gateway = none) ∧
    (state.buildConfiguration (state.Graph.mk (some { Valid := true }) none)).HTTPServers = [] ∧
    (state.buildConfiguration (state.Graph.mk (some { Valid := true }) none)).SSLServers = [] ∧
    (state.buildConfiguration (state.Graph.mk (some { Valid := true }) none)).Upstreams = [] ∧
    (state.buildConfiguration (state.Graph.mk (some { Valid := true }) none)).BackendGroups = [] := by
  refine ⟨rfl, ?_⟩
  exact C4_empty_configuration _ (Or.inr (Or.inr rfl))

/-- A foldl preserves any invariant its step preserves. -/
theorem foldl_preserve {α β : Type} (P : α → Prop) (f : α → β → α)
    (h : ∀ a b, P a → P (f a b)) : ∀ (l : List β) (a : α), P a → P (l.foldl f a) := by
  intro l
  induction l with
  | nil => intro a ha; exact ha
  | cons b bs ih => intro a ha; exact ih (f a b) (h a b ha)

/-- A lookup is none exactly when the key is absent. -/
theorem alistLookup_eq_none_iff {κ α : Type} [DecidableEq κ] (k : κ)
    (m : List (κ × α)) : alistLookup k m = none ↔ k ∉ m.map Prod.fst := by
  induction m with
  | nil => simp [alistLookup]
  | cons p rest ih =>
    by_cases h : p.1 = k
    · simp [alistLookup, h]
    · have hstep : alistLookup k (p :: rest) = alistLookup k rest := by
        simp [alistLookup, h]
      rw [hstep, ih]
      simp only [List.map_cons, List.mem_cons, not_or]
      constructor
      · intro hk
        exact ⟨fun he => h he.symm, hk⟩
      · intro hk
        exact hk.2

/-- Inserting a present key keeps the key list unchanged. -/
theorem alistInsert_keys_mem {κ α : Type} [DecidableEq κ] (k : κ) (v : α)
    (m : List (κ × α)) (h : k ∈ m.map Prod.fst) :
    (alistInsert k v m).map Prod.fst = m.map Prod.fst := by
  induction m with
  | nil => simp at h
  | cons p rest ih =>
    by_cases hp : p.1 = k
    · simp [alistInsert, hp]
    · simp only [List.map_cons] at h
      rcases List.mem_cons.mp h with h | h
      · exact absurd h.symm hp
      · simp [alistInsert, hp, ih h]

/-- Inserting an absent key appends it to the key list. -/
theorem alistInsert_keys_not_mem {κ α : Type} [DecidableEq κ] (k : κ) (v : α)
    (m : List (κ × α)) (h : k ∉ m.map Prod.fst) :
    (alistInsert k v m).map Prod.fst = m.map Prod.fst ++ [k] := by
  induction m with
  | nil => simp [alistInsert]
  | cons p rest ih =>
    simp only [List.map_cons, List.mem_cons, not_or] at h
    have hp : p.1 ≠ k := fun hh => h.1 hh.symm
    simp [alistInsert, hp, ih h.2]

/-- Insertion preserves distinctness of the keys. -/
theorem alistInsert_keys_nodup {κ α : Type} [DecidableEq κ] (k : κ) (v : α)
    (m : List (κ × α)) (h : (m.map Prod.fst).Nodup) :
    ((alistInsert k v m).map Prod.fst).Nodup := by
  by_cases hk : k ∈ m.map Prod.fst
  · rw [alistInsert_keys_mem k v m hk]; exact h
  · rw [alistInsert_keys_not_mem k v m hk]
    simp [List.nodup_append, h, hk]

/-- upsertMatchRule only inserts into the outer map, so distinct hostname
keys stay distinct. -/
theorem upsertMatchRule_keys_nodup (rph : List (String × List (String × state.PathRule)))
    (h path : String) (mr : state.MatchRule)
    (hn : (rph.map Prod.fst).Nodup) :
    ((state.upsertMatchRule rph h path mr).map Prod.fst).Nodup :=
  alistInsert_keys_nodup h _ rph hn

/-- upsertListener preserves distinctness of the rulesPerHost keys. -/
theorem upsertListener_keys_nodup (hpr : state.hostPathRules) (l : state.Listener)
    (hn : (hpr.rulesPerHost.map Prod.fst).Nodup) :
    (((state.upsertListener hpr l).rulesPerHost).map Prod.fst).Nodup := by
  have step1 : ((if l.Source.Protocol = v1beta1.ProtocolType.HTTPS then
      { hpr with listeners := hpr.listeners ++ [l] } else hpr).rulesPerHost.map Prod.fst).Nodup := by
    split <;> exact hn
  unfold state.upsertListener
  refine foldl_preserve (fun (x : state.hostPathRules) => ((x.rulesPerHost).map Prod.fst).Nodup) _ ?_ _ _ step1
  intro acc p hacc
  refine foldl_preserve (fun (x : state.hostPathRules) => ((x.rulesPerHost).map Prod.fst).Nodup) _ ?_ _ _ ?_
  · intro acc2 q hacc2
    refine foldl_preserve (fun (x : state.hostPathRules) => ((x.rulesPerHost).map Prod.fst).Nodup) _ ?_ _ _ hacc2
    intro acc3 h3 hacc3
    refine foldl_preserve (fun (x : state.hostPathRules) => ((x.rulesPerHost).map Prod.fst).Nodup) _ ?_ _ _ hacc3
    intro acc4 mq hacc4
    exact upsertMatchRule_keys_nodup _ _ _ _ hacc4
  · refine foldl_preserve (fun (x : state.hostPathRules) => ((x.rulesPerHost).map Prod.fst).Nodup) _ ?_ _ _ hacc
    intro acc2 h2 hacc2
    show ((match alistLookup h2 acc2.rulesPerHost with
      | none => alistInsert h2 [] acc2.rulesPerHost
      | some _ => acc2.rulesPerHost).map Prod.fst).Nodup
    cases hl : alistLookup h2 acc2.rulesPerHost with
    | none => exact alistInsert_keys_nodup h2 [] _ hacc2
    | some _ => exact hacc2

/-- upsertListener with a non-HTTPS listener leaves the HTTPS listener
collection unchanged. -/
theorem upsertListener_listeners_http (hpr : state.hostPathRules) (l : state.Listener)
    (h : l.Source.Protocol = v1beta1.ProtocolType.HTTP) :
    (state.upsertListener hpr l).listeners = hpr.listeners := by
  have step1 : (if l.Source.Protocol = v1beta1.ProtocolType.HTTPS then
      { hpr with listeners := hpr.listeners ++ [l] } else hpr) = hpr := by
    rw [if_neg]
    rw [h]
    intro hc
    cases hc
  unfold state.upsertListener
  rw [step1]
  refine foldl_preserve (fun (x : state.hostPathRules) => x.listeners = hpr.listeners) _ ?_ _ _ rfl
  intro acc p hacc
  refine foldl_preserve (fun (x : state.hostPathRules) => x.listeners = hpr.listeners) _ ?_ _ _ ?_
  · intro acc2 q hacc2
    refine foldl_preserve (fun (x : state.hostPathRules) => x.listeners = hpr.listeners) _ ?_ _ _ hacc2
    intro acc3 h3 hacc3
    refine foldl_preserve (fun (x : state.hostPathRules) => x.listeners = hpr.listeners) _ ?_ _ _ hacc3
    intro acc4 mq hacc4
    exact hacc4
  · refine foldl_preserve (fun (x : state.hostPathRules) => x.listeners = hpr.listeners) _ ?_ _ _ hacc
    intro acc2 h2 hacc2
    exact hacc2

/-- A merge sort by a string key is pairwise ordered by that key. -/
theorem mergeSort_sorted_by_key {α : Type} (key : α → String) (l : List α) :
    (l.mergeSort (fun a b => key a ≤ key b)).Pairwise (fun a b => key a ≤ key b) := by
  refine (List.sorted_mergeSort ?_ ?_ l).imp (fun hab => of_decide_eq_true hab)
  · intro a b c hab hbc
    exact decide_eq_true (le_trans (of_decide_eq_true hab) (of_decide_eq_true hbc))
  · intro a b
    rcases le_total (key a) (key b) with h | h
    · simp [h]
    · simp [h]

/-- The hostnames of the servers built from the per-hostname table are a
sublist of the table's keys. -/
theorem filterMap_hostname_sublist {α : Type} (l : List α) (key : α → String)
    (g : α → Option state.VirtualServer)
    (hg : ∀ a vs, g a = some vs → vs.Hostname = key a) :
    List.Sublist ((l.filterMap g).map state.VirtualServer.Hostname) (l.map key) := by
  induction l with
  | nil => simp
  | cons a rest ih =>
    cases hga : g a with
    | none =>
      simp only [List.filterMap_cons, hga, List.map_cons]
      exact ih.cons (key a)
    | some vs =>
      simp only [List.filterMap_cons, hga, List.map_cons]
      rw [hg a vs hga]
      exact ih.cons₂ (key a)

/-- When the per-hostname keys are distinct and no default HTTPS servers
are pending, the built servers carry pairwise distinct hostnames. -/
theorem hostPathRules_buildServers_nodup (hpr : state.hostPathRules)
    (hkeys : (hpr.rulesPerHost.map Prod.fst).Nodup)
    (hlist : hpr.listeners = []) :
    ((state.hostPathRules.buildServers hpr).map state.VirtualServer.Hostname).Nodup := by
  unfold state.hostPathRules.buildServers
  rw [hlist]
  simp only [List.filterMap_nil, List.append_nil]
  have hsub := filterMap_hostname_sublist hpr.rulesPerHost Prod.fst
    (fun p => match alistLookup p.1 hpr.listenersForHost with
      | none => none
      | some l => some
        { Hostname := p.1
          PathRules := (p.2.map (fun q =>
            { q.2 with MatchRules := state.sortMatchRules q.2.MatchRules })).mergeSort
              (fun a b => a.Path ≤ b.Path)
          SSL := if l.SecretPath ≠ "" then some { CertificatePath := l.SecretPath }
                 else none })
    (by
      intro a vs havs
      cases hl : alistLookup a.1 hpr.listenersForHost with
      | none =>
        simp only [hl] at havs
        exact Option.noConfusion havs
      | some l =>
        simp only [hl] at havs
        injection havs with h
        rw [← h])
  have hnodup := List.Nodup.sublist hsub hkeys
  have hperm := (List.mergeSort_perm (hpr.rulesPerHost.filterMap (fun p =>
    match alistLookup p.1 hpr.listenersForHost with
    | none => none
    | some l => some
      { Hostname := p.1
        PathRules := (p.2.map (fun q =>
          { q.2 with MatchRules := state.sortMatchRules q.2.MatchRules })).mergeSort
            (fun a b => a.Path ≤ b.Path)
        SSL := if l.SecretPath ≠ "" then some { CertificatePath := l.SecretPath }
               else none })) (fun a b => a.Hostname ≤ b.Hostname)).map
    state.VirtualServer.Hostname
  exact hperm.symm.nodup hnodup

/-- All built servers, in either bucket, are ordered by hostname. -/
theorem hostPathRules_buildServers_sorted (hpr : state.hostPathRules) :
    (state.hostPathRules.buildServers hpr).Pairwise
      (fun a b => a.Hostname ≤ b.Hostname) := by
  unfold state.hostPathRules.buildServers
  exact mergeSort_sorted_by_key state.VirtualServer.Hostname _

/-- Every built server has its path rules ordered by path. -/
theorem hostPathRules_buildServers_pathrules (hpr : state.hostPathRules) :
    ∀ vs ∈ state.hostPathRules.buildServers hpr,
      vs.PathRules.Pairwise (fun a b => a.Path ≤ b.Path) := by
  intro vs hvs
  unfold state.hostPathRules.buildServers at hvs
  rw [List.mem_mergeSort] at hvs
  rcases List.mem_append.mp hvs with h | h
  · obtain ⟨p, _, hpe⟩ := List.mem_filterMap.mp h
    cases hl : alistLookup p.1 hpr.listenersForHost with
    | none =>
      simp only [hl] at hpe
      exact Option.noConfusion hpe
    | some l =>
      simp only [hl] at hpe
      injection hpe with h2
      rw [← h2]
      exact mergeSort_sorted_by_key state.PathRule.Path _
  · obtain ⟨l, _, hle⟩ := List.mem_filterMap.mp h
    by_cases hc : l.Routes.length = 0 ∨ state.getListenerHostname l.Source.Hostname =
        state.wildcardHostname
    · simp only [if_pos hc] at hle
      injection hle with h2
      rw [← h2]
      exact List.Pairwise.nil
    · simp only [if_neg hc] at hle
      exact Option.noConfusion hle

/-- The HTTP bucket of buildServers only ever upserts HTTP listeners, so
its rulesPerHost keys stay distinct and it collects no HTTPS listeners. -/
theorem buildServers_http_bucket_inv (listeners : List (String × state.Listener)) :
    ((listeners.foldl (fun hpr p =>
      if p.2.Valid && p.2.Source.Protocol == v1beta1.ProtocolType.HTTP
      then state.upsertListener hpr p.2 else hpr)
      state.newHostPathRules).rulesPerHost.map Prod.fst).Nodup ∧
    (listeners.foldl (fun hpr p =>
      if p.2.Valid && p.2.Source.Protocol == v1beta1.ProtocolType.HTTP
      then state.upsertListener hpr p.2 else hpr)
      state.newHostPathRules).listeners = [] := by
  refine foldl_preserve (fun (x : state.hostPathRules) =>
    ((x.rulesPerHost.map Prod.fst).Nodup ∧ x.listeners = [])) _ ?_ _ _ ?_
  · intro acc p hacc
    by_cases hc : (p.2.Valid && p.2.Source.Protocol == v1beta1.ProtocolType.HTTP) = true
    · rw [if_pos hc]
      have hproto : p.2.Source.Protocol = v1beta1.ProtocolType.HTTP := by
        have := (Bool.and_eq_true _ _).mp hc
        exact beq_iff_eq.mp this.2
      refine ⟨upsertListener_keys_nodup acc p.2 hacc.1, ?_⟩
      rw [upsertListener_listeners_http acc p.2 hproto]
      exact hacc.2
    · rw [if_neg hc]
      exact hacc
  · exact ⟨List.nodup_nil, rfl⟩

/-- Similarly the HTTPS bucket only upserts HTTPS listeners; only key
distinctness is needed there. -/
theorem buildServers_https_bucket_keys (listeners : List (String × state.Listener)) :
    ((listeners.foldl (fun hpr p =>
      if p.2.Valid && p.2.Source.Protocol == v1beta1.ProtocolType.HTTPS
      then state.upsertListener hpr p.2 else hpr)
      state.newHostPathRules).rulesPerHost.map Prod.fst).Nodup := by
  refine foldl_preserve (fun (x : state.hostPathRules) =>
    ((x.rulesPerHost.map Prod.fst).Nodup)) _ ?_ _ _ List.nodup_nil
  intro acc p hacc
  by_cases hc : (p.2.Valid && p.2.Source.Protocol == v1beta1.ProtocolType.HTTPS) = true
  · rw [if_pos hc]
    exact upsertListener_keys_nodup acc p.2 hacc
  · rw [if_neg hc]
    exact hacc

/-- C9 (amended): in every built Configuration the HTTP servers carry
pairwise distinct hostnames; both buckets are sorted by hostname
ascending; and every server's path rules are sorted by path ascending.
The original claim's hostname uniqueness for the SSL bucket fails (see
the counterexample): a default server emitted for a route-less HTTPS
listener reuses that listener's own hostname, which can equal a hostname
served from another listener's routes. -/
theorem C9_server_ordering :
    (∀ g : state.Graph,
      ((state.buildConfiguration g).HTTPServers.map state.VirtualServer.Hostname).Nodup) ∧
    (∀ g : state.Graph,
      (state.buildConfiguration g).HTTPServers.Pairwise
        (fun a b => a.Hostname ≤ b.Hostname) ∧
      (state.buildConfiguration g).SSLServers.Pairwise
        (fun a b => a.Hostname ≤ b.Hostname)) ∧
    (∀ g : state.Graph,
      ((state.buildConfiguration g).HTTPServers ++
        (state.buildConfiguration g).SSLServers).Forall
        (fun vs => vs.PathRules.Pairwise (fun a b => a.Path ≤ b.Path))) := by
  have hcases : ∀ g : state.Graph,
      ((state.buildConfiguration g).HTTPServers = [] ∧
        (state.buildConfiguration g).SSLServers = []) ∨
      ∃ gw : state.Gateway, (state.buildConfiguration g).HTTPServers =
          (state.buildServers gw.Listeners).1 ∧
        (state.buildConfiguration g).SSLServers =
          (state.buildServers gw.Listeners).2 := by
    intro g
    cases hc : g.GatewayClass with
    | none => exact Or.inl (by simp [state.buildConfiguration, hc])
    | some gc =>
      cases hv : gc.Valid with
      | false => exact Or.inl (by simp [state.buildConfiguration, hc, hv])
      | true =>
        cases hg : g.Gateway with
        | none => exact Or.inl (by simp [state.buildConfiguration, hc, hv, hg])
        | some gw =>
          exact Or.inr ⟨gw, by simp [state.buildConfiguration, hc, hv, hg]⟩
  refine ⟨?_, ?_, ?_⟩
  · intro g
    rcases hcases g with ⟨h1, _⟩ | ⟨gw, h1, _⟩
    · rw [h1]; exact List.nodup_nil
    · rw [h1]
      obtain ⟨hkeys, hlist⟩ := buildServers_http_bucket_inv gw.Listeners
      exact hostPathRules_buildServers_nodup _ hkeys hlist
  · intro g
    rcases hcases g with ⟨h1, h2⟩ | ⟨gw, h1, h2⟩
    · rw [h1, h2]; exact ⟨List.Pairwise.nil, List.Pairwise.nil⟩
    · rw [h1, h2]
      exact ⟨hostPathRules_buildServers_sorted _, hostPathRules_buildServers_sorted _⟩
  · intro g
    rw [List.forall_iff_forall_mem]
    intro vs hvs
    rcases hcases g with ⟨h1, h2⟩ | ⟨gw, h1, h2⟩
    · rw [h1, h2] at hvs; simp at hvs
    · rw [h1, h2] at hvs
      rcases List.mem_append.mp hvs with h | h
      · exact hostPathRules_buildServers_pathrules _ vs h
      · exact hostPathRules_buildServers_pathrules _ vs h

/-- A bound HTTPRoute for the C9 counterexample: hostname foo.example.com,
one rule with one path-only match on "/". -/
def c9Route : state.Route :=
  { Source := { Namespace := "test", Name := "hr"
                Spec := { Hostnames := ["foo.example.com"]
                          Rules := [{ Matches := [{ Path := some { Value := some "/" },
                                                    Method := none, Headers := none,
                                                    QueryParams := none }]
                                      Filters := [], BackendRefs := [] }] } }
    BackendRefs := state.newBackendRefs }

/-- The C9 counterexample graph: two valid HTTPS listeners, one with
hostname foo.example.com and no routes, one without a hostname carrying a
route whose accepted hostname is foo.example.com. -/
def c9Graph : state.Graph :=
  { GatewayClass := some { Valid := true }
    Gateway := some { Listeners := [
      ("l1", { Source := { Hostname := some "foo.example.com"
                           Protocol := v1beta1.ProtocolType.HTTPS }
               Valid := true, Routes := [], AcceptedHostnames := []
               SecretPath := "cert" }),
      ("l2", { Source := { Hostname := none
                           Protocol := v1beta1.ProtocolType.HTTPS }
               Valid := true
               Routes := [({ Namespace := "test", Name := "hr" }, c9Route)]
               AcceptedHostnames := ["foo.example.com"]
               SecretPath := "cert" })] } }

/-- Counterexample to C9 as stated: on c9Graph the SSL bucket contains two
servers with hostname foo.example.com (one from the bound route, one as
the default server of the route-less listener l1), so hostnames within a
bucket are not pairwise distinct. -/
theorem C9_hostname_uniqueness_counterexample :
    ¬ (((state.buildConfiguration c9Graph).SSLServers.map
      state.VirtualServer.Hostname).Nodup) := by
  have heval : (state.buildConfiguration c9Graph).SSLServers.map
      state.VirtualServer.Hostname = ["foo.example.com", "foo.example.com", "~^"] := by
    simp +decide [state.buildConfiguration, c9Graph, c9Route, state.buildServers,
      state.newHostPathRules, state.upsertListener, state.upsertMatchRule,
      state.hostPathRules.buildServers, state.getListenerHostname, state.getHostname,
      state.wildcardHostname, state.getPath, state.createFilters, state.sortMatchRules,
      state.matchRuleLe, state.newBackendRefs, alistLookup, alistInsert,
      List.mergeSort, List.merge]
  rw [heval]
  decide

/-- A foldl preserves any invariant its step preserves for list members. -/
theorem foldl_preserve_mem {α β : Type} (P : α → Prop) (f : α → β → α)
    (l : List β) (h : ∀ a b, b ∈ l → P a → P (f a b)) :
    ∀ (a : α), P a → P (l.foldl f a) := by
  induction l with
  | nil => intro a ha; exact ha
  | cons b bs ih =>
    intro a ha
    exact ih (fun a' b' hb' => h a' b' (List.mem_cons_of_mem b hb')) (f a b)
      (h a b (List.mem_cons_self b bs) ha)

/-- Every entry of an insertion is the inserted pair or an original entry. -/
theorem alistInsert_mem {κ α : Type} [DecidableEq κ] {k : κ} {v : α}
    {m : List (κ × α)} {a : κ × α} (h : a ∈ alistInsert k v m) :
    a = (k, v) ∨ a ∈ m := by
  induction m with
  | nil => simpa [alistInsert] using h
  | cons p rest ih =>
    by_cases hp : p.1 = k
    · simp only [alistInsert, hp, if_pos] at h
      rcases List.mem_cons.mp h with h | h
      · exact Or.inl h
      · exact Or.inr (List.mem_cons_of_mem p h)
    · simp only [alistInsert, hp, if_neg, if_false] at h
      rcases List.mem_cons.mp h with h | h
      · exact Or.inr (h ▸ List.mem_cons_self p rest)
      · rcases ih h with h | h
        · exact Or.inl h
        · exact Or.inr (List.mem_cons_of_mem p h)

/-- A successful lookup locates an entry of the list. -/
theorem alistLookup_mem {κ α : Type} [DecidableEq κ] {k : κ} {v : α}
    {m : List (κ × α)} (h : alistLookup k m = some v) : (k, v) ∈ m := by
  induction m with
  | nil => simp [alistLookup] at h
  | cons p rest ih =>
    by_cases hp : p.1 = k
    · simp only [alistLookup, hp, if_pos] at h
      injection h with h
      have : p = (k, v) := by
        cases p
        simp only at hp h
        simp [hp, h]
      exact this ▸ List.mem_cons_self p rest
    · simp only [alistLookup, hp, if_neg, if_false] at h
      exact List.mem_cons_of_mem p (ih h)

/-- A lookup is defined exactly when the key occurs. -/
theorem alistLookup_isSome_iff {κ α : Type} [DecidableEq κ] (k : κ)
    (m : List (κ × α)) : (alistLookup k m).isSome ↔ k ∈ m.map Prod.fst := by
  constructor
  · intro h
    by_contra hk
    rw [(alistLookup_eq_none_iff k m).mpr hk] at h
    exact Bool.noConfusion h
  · intro h
    cases hl : alistLookup k m with
    | none => exact absurd h ((alistLookup_eq_none_iff k m).mp hl)
    | some v => rfl

/-- The names of the generated upstreams are the input names plus the
invalid-backend sentinel. -/
theorem createUpstreams_names (ups : List state.Upstream) :
    (config.createUpstreams ups).map http.Upstream.Name =
      ups.map state.Upstream.Name ++ [config.invalidBackendRef] := by
  induction ups with
  | nil => rfl
  | cons u us ih =>
    simp only [config.createUpstreams, List.map_cons, List.map_append,
      List.cons_append, List.cons.injEq] at ih ⊢
    refine ⟨?_, ih⟩
    cases h : u.Endpoints <;> simp [config.createUpstream, h]

/-- Once one step of a foldl establishes an invariant that all later steps
preserve, the fold's result satisfies it. -/
theorem foldl_establish {α β : Type} (P : α → Prop) (f : α → β → α)
    (l : List β) (b : β) (hb : b ∈ l) (hstep : ∀ a, P (f a b))
    (hpres : ∀ a b', P a → P (f a b')) : ∀ a, P (l.foldl f a) := by
  induction l with
  | nil => cases hb
  | cons c cs ih =>
    intro a
    rcases List.mem_cons.mp hb with h | h
    · subst h
      exact foldl_preserve P f hpres cs (f a b) (hstep a)
    · exact ih h (f a c)

/-- In the output of the backend resolver for one route, every valid
backend of every stored group has its endpoints recorded under its name. -/
theorem resolver_valid_backend_resolved
    (services : List (state.NamespacedName × state.Service))
    (resolve : state.ServiceResolver) (r : v1beta1.HTTPRoute) :
    ∀ entry ∈ (state.resolveBackendRefsForRoute services resolve r).ByRule,
      ∀ b ∈ entry.2.Backends, b.Valid = true →
        (alistLookup b.Name
          (state.resolveBackendRefsForRoute services resolve r).Resolved).isSome := by
  unfold state.resolveBackendRefsForRoute
  refine foldl_preserve (fun (st : state.BackendRefs) =>
    ∀ entry ∈ st.ByRule, ∀ b ∈ entry.2.Backends, b.Valid = true →
      (alistLookup b.Name st.Resolved).isSome) _ ?_ _ _ ?_
  · intro st p hst entry hentry b hb hbv
    obtain ⟨-, hmono, hbyrule, hidx⟩ :=
      processBackendRef_foldl_snd services resolve r.Namespace p.2.BackendRefs [] st
    have hfst := processBackendRef_foldl_fst services resolve r.Namespace p.2.BackendRefs [] st
    have hentry' : entry = (p.1,
        { Source := { Namespace := r.Namespace, Name := r.Name }
          RuleIdx := p.1
          Backends := (p.2.BackendRefs.foldl
            (state.processBackendRef services resolve r.Namespace) ([], st)).1 }) ∨
        entry ∈ st.ByRule := by
      have : entry ∈ (state.resolveRuleRefs services resolve r st p.1 p.2).ByRule := hentry
      unfold state.resolveRuleRefs at this
      rcases alistInsert_mem this with h | h
      · exact Or.inl h
      · rw [hbyrule] at h
        exact Or.inr h
    rcases hentry' with h | h
    · subst h
      simp only at hb
      rw [hfst] at hb
      simp only [List.nil_append] at hb
      obtain ⟨bref, hbref, hslot⟩ := List.mem_map.mp hb
      obtain ⟨j, hj⟩ := List.mem_iff_getElem?.mp hbref
      cases hres : state.getServiceAndPortFromRef bref.BackendRef r.Namespace services with
      | error err =>
        rw [← hslot] at hbv
        simp [state.backendSlotOf, hres] at hbv
      | ok svcport =>
        obtain ⟨svc, port⟩ := svcport
        obtain ⟨-, hok⟩ := hidx j bref hj
        obtain ⟨hsome, -⟩ := hok svc port hres
        have hbname : b.Name = svc.Namespace ++ "_" ++ svc.Name ++ "_" ++ toString port := by
          rw [← hslot]
          simp [state.backendSlotOf, hres]
        show (alistLookup b.Name
          (state.resolveRuleRefs services resolve r st p.1 p.2).Resolved).isSome
        unfold state.resolveRuleRefs
        rw [hbname]
        exact hsome
    · have hin : (alistLookup b.Name st.Resolved).isSome := hst entry h b hb hbv
      show (alistLookup b.Name
        (state.resolveRuleRefs services resolve r st p.1 p.2).Resolved).isSome
      unfold state.resolveRuleRefs
      exact hmono b.Name hin
  · intro entry hentry
    cases hentry

/-- One step of the upstream-deduplication loop never loses a key. -/
theorem upstreamStep_key_mono (name : String)
    (m : List (String × state.Upstream)) (e : String × List resolver.Endpoint)
    (h : name ∈ m.map Prod.fst) :
    name ∈ ((match alistLookup e.1 m with
      | none => alistInsert e.1 ({ Name := e.1, Endpoints := e.2 } : state.Upstream) m
      | some _ => m).map Prod.fst) := by
  cases hl : alistLookup e.1 m with
  | none =>
    rw [alistInsert_keys_not_mem e.1 _ m ((alistLookup_eq_none_iff e.1 m).mp hl)]
    exact List.mem_append_left _ h
  | some _ => exact h

/-- One step of the upstream-deduplication loop puts its own key in. -/
theorem upstreamStep_key_self (m : List (String × state.Upstream))
    (e : String × List resolver.Endpoint) :
    e.1 ∈ ((match alistLookup e.1 m with
      | none => alistInsert e.1 ({ Name := e.1, Endpoints := e.2 } : state.Upstream) m
      | some _ => m).map Prod.fst) := by
  cases hl : alistLookup e.1 m with
  | none =>
    rw [alistInsert_keys_not_mem e.1 _ m ((alistLookup_eq_none_iff e.1 m).mp hl)]
    exact List.mem_append_right _ (List.mem_singleton.mpr rfl)
  | some _ => exact (alistLookup_isSome_iff e.1 m).mp (by rw [hl]; rfl)

/-- Every resolved backend name of every route of every valid listener is
the name of an emitted upstream. -/
theorem buildUpstreams_covers (listeners : List (String × state.Listener))
    (p : String × state.Listener) (hp : p ∈ listeners) (hpv : p.2.Valid = true)
    (q : state.NamespacedName × state.Route) (hq : q ∈ p.2.Routes) (name : String)
    (hname : (alistLookup name q.2.BackendRefs.Resolved).isSome) :
    name ∈ (state.buildUpstreams listeners).map state.Upstream.Name := by
  have hkey : name ∈ ((listeners.foldl (fun m p =>
      if p.2.Valid then
        p.2.Routes.foldl (fun m q =>
          q.2.BackendRefs.Resolved.foldl (fun m e =>
            match alistLookup e.1 m with
            | none => alistInsert e.1 ({ Name := e.1, Endpoints := e.2 } : state.Upstream) m
            | some _ => m) m) m
      else m) []).map Prod.fst) := by
    obtain ⟨e, he, hename⟩ := List.mem_map.mp ((alistLookup_isSome_iff name _).mp hname)
    refine foldl_establish (fun (m : List (String × state.Upstream)) => name ∈ m.map Prod.fst) _ listeners p hp ?_ ?_ []
    · intro m
      rw [if_pos hpv]
      refine foldl_establish (fun (m : List (String × state.Upstream)) => name ∈ m.map Prod.fst) _ p.2.Routes q hq ?_ ?_ m
      · intro m
        refine foldl_establish (fun (m : List (String × state.Upstream)) => name ∈ m.map Prod.fst) _
          q.2.BackendRefs.Resolved e he ?_ ?_ m
        · intro m
          rw [← hename]
          exact upstreamStep_key_self m e
        · intro m e' h
          exact upstreamStep_key_mono name m e' h
      · intro m q' h
        refine foldl_preserve (fun (m : List (String × state.Upstream)) => name ∈ m.map Prod.fst) _ ?_ _ m h
        intro m e' h
        exact upstreamStep_key_mono name m e' h
    · intro m p' h
      by_cases hv' : p'.2.Valid = true
      · rw [if_pos hv']
        refine foldl_preserve (fun (m : List (String × state.Upstream)) => name ∈ m.map Prod.fst) _ ?_ _ m h
        intro m q' h
        refine foldl_preserve (fun (m : List (String × state.Upstream)) => name ∈ m.map Prod.fst) _ ?_ _ m h
        intro m e' h
        exact upstreamStep_key_mono name m e' h
      · rw [if_neg hv']
        exact h
  have hkeyed : ∀ entry ∈ (listeners.foldl (fun m p =>
      if p.2.Valid then
        p.2.Routes.foldl (fun m q =>
          q.2.BackendRefs.Resolved.foldl (fun m e =>
            match alistLookup e.1 m with
            | none => alistInsert e.1 ({ Name := e.1, Endpoints := e.2 } : state.Upstream) m
            | some _ => m) m) m
      else m) []), entry.2.Name = entry.1 := by
    refine foldl_preserve (fun (m : List (String × state.Upstream)) =>
      ∀ entry ∈ m, entry.2.Name = entry.1) _ ?_ _ _ ?_
    · intro m p' hm
      by_cases hv' : p'.2.Valid = true
      · rw [if_pos hv']
        refine foldl_preserve (fun (m : List (String × state.Upstream)) =>
          ∀ entry ∈ m, entry.2.Name = entry.1) _ ?_ _ _ hm
        intro m q' hm
        refine foldl_preserve (fun (m : List (String × state.Upstream)) =>
          ∀ entry ∈ m, entry.2.Name = entry.1) _ ?_ _ _ hm
        intro m e' hm entry hentry
        revert hentry
        show entry ∈ (match alistLookup e'.1 m with
          | none => alistInsert e'.1 ({ Name := e'.1, Endpoints := e'.2 } : state.Upstream) m
          | some _ => m) → entry.2.Name = entry.1
        cases hl : alistLookup e'.1 m with
        | none =>
          intro hentry
          rcases alistInsert_mem hentry with h | h
          · rw [h]
          · exact hm entry h
        | some _ =>
          intro hentry
          exact hm entry hentry
      · rw [if_neg hv']
        exact hm
    · intro entry hentry
      cases hentry
  obtain ⟨entry, hentry, hename⟩ := List.mem_map.mp hkey
  show name ∈ (state.buildUpstreams listeners).map state.Upstream.Name
  unfold state.buildUpstreams
  refine List.mem_map.mpr ⟨entry.2, ?_, ?_⟩
  · rw [List.mem_mergeSort]
    exact List.mem_map.mpr ⟨entry, hentry, rfl⟩
  · rw [hkeyed entry hentry, hename]

/-- A backend group reachable from a configuration built over the given
listeners: either the zero-value group (absent rule index) or a group
stored by the resolver for a route of a valid listener. -/
def GroupFromListeners (ls : List (String × state.Listener))
    (bg : state.BackendGroup) : Prop :=
  bg = default ∨ ∃ p ∈ ls, p.2.Valid = true ∧ ∃ q ∈ p.2.Routes,
    ∃ entry ∈ q.2.BackendRefs.ByRule, entry.2 = bg

/-- Every match rule found after an upsertMatchRule is an original match
rule or the inserted one. -/
theorem upsertMatchRule_matchRules
    (rph : List (String × List (String × state.PathRule)))
    (h path : String) (mr : state.MatchRule) :
    ∀ entry ∈ state.upsertMatchRule rph h path mr, ∀ pe ∈ entry.2,
      ∀ m ∈ pe.2.MatchRules,
        (∃ entry' ∈ rph, ∃ pe' ∈ entry'.2, m ∈ pe'.2.MatchRules) ∨ m = mr := by
  intro entry hentry pe hpe m hm
  unfold state.upsertMatchRule at hentry
  rcases alistInsert_mem hentry with he | he
  · subst he
    simp only at hpe
    rcases alistInsert_mem hpe with hp | hp
    · subst hp
      simp only at hm
      cases hlp : alistLookup path ((alistLookup h rph).getD []) with
      | none =>
        rw [hlp] at hm
        simp only [List.nil_append] at hm
        exact Or.inr (List.mem_singleton.mp hm)
      | some pr0 =>
        rw [hlp] at hm
        rcases List.mem_append.mp hm with hmm | hmm
        · cases hlh : alistLookup h rph with
          | none =>
            rw [hlh] at hlp
            simp [alistLookup] at hlp
          | some inner0 =>
            rw [hlh] at hlp
            exact Or.inl ⟨(h, inner0), alistLookup_mem hlh, (path, pr0),
              alistLookup_mem hlp, hmm⟩
        · exact Or.inr (List.mem_singleton.mp hmm)
    · cases hlh : alistLookup h rph with
      | none =>
        rw [hlh] at hp
        simp at hp
      | some inner0 =>
        rw [hlh] at hp
        exact Or.inl ⟨(h, inner0), alistLookup_mem hlh, pe, hp, hm⟩
  · exact Or.inl ⟨entry, he, pe, hpe, hm⟩

/-- The invariant carried by the server builder: every match rule stored in
the per-hostname table has a reachable backend group. -/
def hprGroupsOk (ls : List (String × state.Listener))
    (hpr : state.hostPathRules) : Prop :=
  ∀ entry ∈ hpr.rulesPerHost, ∀ pe ∈ entry.2, ∀ m ∈ pe.2.MatchRules,
    GroupFromListeners ls m.BackendGroup

/-- upsertListener with a valid listener of the table keeps every stored
backend group reachable. -/
theorem upsertListener_origin (ls : List (String × state.Listener))
    (hpr : state.hostPathRules) (l : state.Listener)
    (hl : ∃ p ∈ ls, p.2 = l ∧ p.2.Valid = true)
    (hq : hprGroupsOk ls hpr) : hprGroupsOk ls (state.upsertListener hpr l) := by
  unfold state.upsertListener
  have hstep1 : hprGroupsOk ls (if l.Source.Protocol = v1beta1.ProtocolType.HTTPS then
      { hpr with listeners := hpr.listeners ++ [l] } else hpr) := by
    split <;> exact hq
  refine foldl_preserve_mem (hprGroupsOk ls) _ l.Routes ?_ _ hstep1
  intro acc routeEntry hroute hacc
  refine foldl_preserve (hprGroupsOk ls) _ ?_ _ _ ?_
  · intro acc2 q hacc2
    refine foldl_preserve (hprGroupsOk ls) _ ?_ _ _ hacc2
    intro acc3 h3 hacc3
    refine foldl_preserve (hprGroupsOk ls) _ ?_ _ _ hacc3
    intro acc4 mq hacc4
    intro entry hentry pe hpe m hm
    rcases upsertMatchRule_matchRules acc4.rulesPerHost h3 (state.getPath mq.2.Path)
      { MatchIdx := mq.1, RuleIdx := q.1, Source := routeEntry.2.Source,
        BackendGroup := (alistLookup q.1 routeEntry.2.BackendRefs.ByRule).getD default,
        Filters := state.createFilters q.2.Filters }
      entry hentry pe hpe m hm with hold | hnew
    · obtain ⟨entry', he', pe', hp', hm'⟩ := hold
      exact hacc4 entry' he' pe' hp' m hm'
    · subst hnew
      simp only
      cases hbr : alistLookup q.1 routeEntry.2.BackendRefs.ByRule with
      | none => exact Or.inl rfl
      | some bg =>
        obtain ⟨p, hp, hpl, hpv⟩ := hl
        refine Or.inr ⟨p, hp, hpv, routeEntry, ?_, (q.1, bg), alistLookup_mem hbr, rfl⟩
        rw [hpl]
        exact hroute
  · refine foldl_preserve (hprGroupsOk ls) _ ?_ _ _ hacc
    intro acc2 h2 hacc2
    intro entry hentry pe hpe m hm
    have hentry2 : entry ∈ (match alistLookup h2 acc2.rulesPerHost with
        | none => alistInsert h2 [] acc2.rulesPerHost
        | some _ => acc2.rulesPerHost) := hentry
    cases hlh : alistLookup h2 acc2.rulesPerHost with
    | none =>
      rw [hlh] at hentry2
      rcases alistInsert_mem hentry2 with he | he
      · subst he
        simp at hpe
      · exact hacc2 entry he pe hpe m hm
    | some _ =>
      rw [hlh] at hentry2
      exact hacc2 entry hentry2 pe hpe m hm

/-- Both protocol buckets of buildServers keep every stored backend group
reachable from the listener table. -/
theorem bucket_groups_ok (ls : List (String × state.Listener))
    (proto : v1beta1.ProtocolType) :
    hprGroupsOk ls (ls.foldl (fun hpr p =>
      if p.2.Valid && p.2.Source.Protocol == proto
      then state.upsertListener hpr p.2 else hpr) state.newHostPathRules) := by
  refine foldl_preserve_mem (hprGroupsOk ls) _ ls ?_ _ ?_
  · intro acc p hp hacc
    by_cases hc : (p.2.Valid && p.2.Source.Protocol == proto) = true
    · rw [if_pos hc]
      have hv : p.2.Valid = true := ((Bool.and_eq_true _ _).mp hc).1
      exact upsertListener_origin ls acc p.2 ⟨p, hp, rfl, hv⟩ hacc
    · rw [if_neg hc]
      exact hacc
  · intro entry hentry
    cases hentry

/-- Every match rule of every server built from a bucket has a reachable
backend group. -/
theorem buildServers_groups_origin (ls : List (String × state.Listener))
    (proto : v1beta1.ProtocolType) :
    ∀ vs ∈ state.hostPathRules.buildServers (ls.foldl (fun hpr p =>
        if p.2.Valid && p.2.Source.Protocol == proto
        then state.upsertListener hpr p.2 else hpr) state.newHostPathRules),
      ∀ pr ∈ vs.PathRules, ∀ m ∈ pr.MatchRules,
        GroupFromListeners ls m.BackendGroup := by
  intro vs hvs pr hpr m hm
  have hok := bucket_groups_ok ls proto
  set hpr0 := ls.foldl (fun hpr p =>
    if p.2.Valid && p.2.Source.Protocol == proto
    then state.upsertListener hpr p.2 else hpr) state.newHostPathRules with hhpr0
  unfold state.hostPathRules.buildServers at hvs
  rw [List.mem_mergeSort] at hvs
  rcases List.mem_append.mp hvs with h | h
  · obtain ⟨p, hp, hpe⟩ := List.mem_filterMap.mp h
    cases hl : alistLookup p.1 hpr0.listenersForHost with
    | none =>
      simp only [hl] at hpe
      exact Option.noConfusion hpe
    | some l =>
      simp only [hl] at hpe
      injection hpe with hpe
      rw [← hpe] at hpr
      simp only at hpr
      rw [List.mem_mergeSort] at hpr
      obtain ⟨pe, hpe2, hpe3⟩ := List.mem_map.mp hpr
      rw [← hpe3] at hm
      simp only at hm
      unfold state.sortMatchRules at hm
      rw [List.mem_mergeSort] at hm
      exact hok p hp pe hpe2 m hm
  · obtain ⟨l, -, hle⟩ := List.mem_filterMap.mp h
    by_cases hc : l.Routes.length = 0 ∨ state.getListenerHostname l.Source.Hostname =
        state.wildcardHostname
    · simp only [if_pos hc] at hle
      injection hle with hle
      rw [← hle] at hpr
      simp at hpr
    · simp only [if_neg hc] at hle
      exact Option.noConfusion hle

/-- Every backend group emitted by buildBackendGroups was stored by the
resolver for a route of a valid listener. -/
theorem buildBackendGroups_origin (ls : List (String × state.Listener)) :
    ∀ grp ∈ state.buildBackendGroups ls, ∃ p ∈ ls, p.2.Valid = true ∧
      ∃ q ∈ p.2.Routes, ∃ entry ∈ q.2.BackendRefs.ByRule, entry.2 = grp := by
  intro grp hgrp
  unfold state.buildBackendGroups at hgrp
  rw [List.mem_mergeSort] at hgrp
  obtain ⟨mentry, hmentry, hsnd⟩ := List.mem_map.mp hgrp
  have hinv : ∀ mentry ∈ (ls.foldl (fun m p =>
      if p.2.Valid then
        p.2.Routes.foldl (fun m q =>
          q.2.BackendRefs.ByRule.foldl (fun m e =>
            match alistLookup e.2.GroupName m with
            | none => alistInsert e.2.GroupName e.2 m
            | some _ => m) m) m
      else m) []),
      ∃ p ∈ ls, p.2.Valid = true ∧ ∃ q ∈ p.2.Routes,
        ∃ entry ∈ q.2.BackendRefs.ByRule, entry.2 = mentry.2 := by
    refine foldl_preserve_mem (fun (m : List (String × state.BackendGroup)) =>
      ∀ me ∈ m, ∃ p ∈ ls, p.2.Valid = true ∧ ∃ q ∈ p.2.Routes,
        ∃ entry ∈ q.2.BackendRefs.ByRule, entry.2 = me.2) _ ls ?_ _ ?_
    · intro acc p hp hacc
      by_cases hv : p.2.Valid = true
      · rw [if_pos hv]
        refine foldl_preserve_mem (fun (m : List (String × state.BackendGroup)) =>
          ∀ me ∈ m, ∃ p ∈ ls, p.2.Valid = true ∧ ∃ q ∈ p.2.Routes,
            ∃ entry ∈ q.2.BackendRefs.ByRule, entry.2 = me.2) _ p.2.Routes ?_ _ hacc
        intro acc2 q hq hacc2
        refine foldl_preserve_mem (fun (m : List (String × state.BackendGroup)) =>
          ∀ me ∈ m, ∃ p ∈ ls, p.2.Valid = true ∧ ∃ q ∈ p.2.Routes,
            ∃ entry ∈ q.2.BackendRefs.ByRule, entry.2 = me.2) _
          q.2.BackendRefs.ByRule ?_ _ hacc2
        intro acc3 e he hacc3 me hme
        have hme2 : me ∈ (match alistLookup e.2.GroupName acc3 with
          | none => alistInsert e.2.GroupName e.2 acc3
          | some _ => acc3) := hme
        cases hle : alistLookup e.2.GroupName acc3 with
        | none =>
          rw [hle] at hme2
          rcases alistInsert_mem hme2 with hh | hh
          · subst hh
            exact ⟨p, hp, hv, q, hq, e, he, rfl⟩
          · exact hacc3 me hh
        | some _ =>
          rw [hle] at hme2
          exact hacc3 me hme2
      · rw [if_neg hv]
        exact hacc
    · intro me hme
      cases hme
  obtain ⟨p, hp, hv, q, hq, entry, he, heq⟩ := hinv mentry hmentry
  exact ⟨p, hp, hv, q, hq, entry, he, by rw [heq, hsnd]⟩

/-- A valid backend of a reachable group names an emitted upstream. -/
theorem valid_backend_name_emitted (ls : List (String × state.Listener))
    (hres : ∀ p ∈ ls, ∀ q ∈ p.2.Routes, ∃ services resolve,
      q.2.BackendRefs = state.resolveBackendRefsForRoute services resolve q.2.Source)
    (bg : state.BackendGroup)
    (horigin : ∃ p ∈ ls, p.2.Valid = true ∧ ∃ q ∈ p.2.Routes,
      ∃ entry ∈ q.2.BackendRefs.ByRule, entry.2 = bg)
    (b : state.BackendRef) (hb : b ∈ bg.Backends) (hv : b.Valid = true) :
    b.Name ∈ (state.buildUpstreams ls).map state.Upstream.Name := by
  obtain ⟨p, hp, hpv, q, hq, entry, he, heq⟩ := horigin
  obtain ⟨services, resolve, hbr⟩ := hres p hp q hq
  have he' : entry ∈ (state.resolveBackendRefsForRoute services resolve q.2.Source).ByRule := by
    rw [← hbr]
    exact he
  have hb' : b ∈ entry.2.Backends := by
    rw [heq]
    exact hb
  have hsome := resolver_valid_backend_resolved services resolve q.2.Source entry he' b hb' hv
  rw [← hbr] at hsome
  exact buildUpstreams_covers ls p hp hpv q hq b.Name hsome

/-- C2: in every emitted data-plane configuration (over a graph whose
routes were processed by the backend resolver), the invalid-backend
sentinel is always an emitted upstream name, every non-split MatchRule's
proxy-target backend name is an emitted upstream name, and every
split-clients distribution value is an emitted upstream name: there are
no dangling references. -/
theorem C2_no_dangling_references (g : state.Graph)
    (hres : ∀ gw : state.Gateway, g.Gateway = some gw →
      ∀ p ∈ gw.Listeners, ∀ q ∈ p.2.Routes,
        ∃ services resolve, q.2.BackendRefs =
          state.resolveBackendRefsForRoute services resolve q.2.Source) :
    (config.invalidBackendRef ∈
      (config.createUpstreams (state.buildConfiguration g).Upstreams).map
        http.Upstream.Name) ∧
    (∀ vs, (vs ∈ (state.buildConfiguration g).HTTPServers ∨
        vs ∈ (state.buildConfiguration g).SSLServers) →
      ∀ pr ∈ vs.PathRules, ∀ mr ∈ pr.MatchRules,
        mr.Filters.RequestRedirect = none →
        mr.BackendGroup.NeedsSplit = false →
        config.backendNameOrInvalid mr.BackendGroup ∈
          (config.createUpstreams (state.buildConfiguration g).Upstreams).map
            http.Upstream.Name) ∧
    (∀ grp ∈ (state.buildConfiguration g).BackendGroups,
      ∀ ds, config.createSplitClientDistributions grp = some ds →
        ∀ d ∈ ds, d.Value ∈
          (config.createUpstreams (state.buildConfiguration g).Upstreams).map
            http.Upstream.Name) := by
  have hinv : ∀ ups : List state.Upstream, config.invalidBackendRef ∈
      (config.createUpstreams ups).map http.Upstream.Name := by
    intro ups
    rw [createUpstreams_names]
    exact List.mem_append_right _ (List.mem_singleton.mpr rfl)
  have hnamecov : ∀ ups : List state.Upstream, ∀ n,
      n ∈ ups.map state.Upstream.Name →
      n ∈ (config.createUpstreams ups).map http.Upstream.Name := by
    intro ups n hn
    rw [createUpstreams_names]
    exact List.mem_append_left _ hn
  cases hc : g.GatewayClass with
  | none =>
    refine ⟨hinv _, ?_, ?_⟩
    · intro vs hvs
      simp [state.buildConfiguration, hc] at hvs
    · intro grp hgrp
      simp [state.buildConfiguration, hc] at hgrp
  | some gc =>
    cases hv : gc.Valid with
    | false =>
      refine ⟨hinv _, ?_, ?_⟩
      · intro vs hvs
        simp [state.buildConfiguration, hc, hv] at hvs
      · intro grp hgrp
        simp [state.buildConfiguration, hc, hv] at hgrp
    | true =>
      cases hg : g.Gateway with
      | none =>
        refine ⟨hinv _, ?_, ?_⟩
        · intro vs hvs
          simp [state.buildConfiguration, hc, hv, hg] at hvs
        · intro grp hgrp
          simp [state.buildConfiguration, hc, hv, hg] at hgrp
      | some gw =>
        have hbc : state.buildConfiguration g =
            { HTTPServers := (state.buildServers gw.Listeners).1
              SSLServers := (state.buildServers gw.Listeners).2
              Upstreams := state.buildUpstreams gw.Listeners
              BackendGroups := state.buildBackendGroups gw.Listeners } := by
          simp [state.buildConfiguration, hc, hv, hg]
        have hres' := hres gw hg
        have hgroupname : ∀ bg : state.BackendGroup,
            GroupFromListeners gw.Listeners bg →
            bg.NeedsSplit = false →
            config.backendNameOrInvalid bg ∈
              (config.createUpstreams (state.buildUpstreams gw.Listeners)).map
                http.Upstream.Name := by
          intro bg horigin hns
          by_cases hname : bg.Name = ""
          · rw [config.backendNameOrInvalid, hname]
            simpa using hinv _
          · rcases horigin with hdef | horigin
            · rw [hdef] at hname
              exact absurd rfl hname
            · match hbk : bg.Backends with
              | [] =>
                simp only [state.BackendGroup.Name, hbk] at hname
                exact absurd trivial hname
              | [b] =>
                simp only [state.BackendGroup.Name, hbk] at hname
                by_cases hcond : (b.Weight ≤ 0 || !b.Valid) = true
                · rw [if_pos hcond] at hname
                  exact absurd rfl hname
                · rw [if_neg hcond] at hname
                  have hbv : b.Valid = true := by
                    have h2 := eq_false_of_ne_true hcond
                    rcases Bool.or_eq_false_iff.mp h2 with ⟨-, h3⟩
                    simpa using h3
                  have hmem := valid_backend_name_emitted gw.Listeners hres' bg horigin
                    b (by rw [hbk]; exact List.mem_singleton.mpr rfl) hbv
                  have hfinal : config.backendNameOrInvalid bg = b.Name := by
                    simp only [config.backendNameOrInvalid, state.BackendGroup.Name, hbk]
                    rw [if_neg hcond]
                    simp [hname]
                  rw [hfinal]
                  exact hnamecov _ _ hmem
              | b1 :: b2 :: rest =>
                rw [state.BackendGroup.NeedsSplit, hbk] at hns
                simp at hns
        refine ⟨hinv _, ?_, ?_⟩
        · intro vs hvs pr hpr mr hmr hrd hns
          rw [hbc] at hvs ⊢
          simp only
          have horigin : GroupFromListeners gw.Listeners mr.BackendGroup := by
            rcases hvs with h | h
            · exact buildServers_groups_origin gw.Listeners
                v1beta1.ProtocolType.HTTP vs h pr hpr mr hmr
            · exact buildServers_groups_origin gw.Listeners
                v1beta1.ProtocolType.HTTPS vs h pr hpr mr hmr
          exact hgroupname mr.BackendGroup horigin hns
        · intro grp hgrp ds hds d hd
          rw [hbc] at hgrp ⊢
          simp only at hgrp ⊢
          have horigin := buildBackendGroups_origin gw.Listeners grp hgrp
          have hsplit : grp.NeedsSplit = true := by
            by_contra hns
            rw [config.createSplitClientDistributions] at hds
            rw [if_pos (by simp [eq_false_of_ne_true hns])] at hds
            exact Option.noConfusion hds
          rw [config.createSplitClientDistributions, if_neg (by simp [hsplit])] at hds
          by_cases hz : config.totalWeightOf grp.Backends = 0
          · rw [if_pos hz] at hds
            injection hds with hds
            rw [← hds] at hd
            have : d = { Percent := 100, Value := config.invalidBackendRef } :=
              List.mem_singleton.mp hd
            rw [this]
            exact hinv _
          · rw [if_neg hz] at hds
            injection hds with hds
            rw [← hds] at hd
            rw [splitStep_foldl] at hd
            simp only [List.nil_append] at hd
            have hvalue : ∃ b ∈ grp.Backends, d.Value = config.getSplitClientValue b := by
              rcases List.mem_append.mp hd with h | h
              · obtain ⟨b, hb, hbe⟩ := List.mem_map.mp h
                exact ⟨b, (List.dropLast_sublist grp.Backends).mem hb, by rw [← hbe]⟩
              · have hdl := List.mem_singleton.mp h
                have hnonempty : grp.Backends ≠ [] := by
                  intro hx
                  rw [state.BackendGroup.NeedsSplit, hx] at hsplit
                  simp at hsplit
                obtain ⟨x, hx⟩ := Option.isSome_iff_exists.mp
                  (List.getLast?_isSome.mpr hnonempty)
                refine ⟨x, ?_, ?_⟩
                · exact List.mem_of_mem_getLast? (by simp [hx])
                · rw [hdl]
                  simp [hx]
            obtain ⟨b, hb, hbval⟩ := hvalue
            rw [hbval]
            rw [config.getSplitClientValue]
            by_cases hbv : b.Valid = true
            · rw [if_pos hbv]
              have horigin2 : ∃ p ∈ gw.Listeners, p.2.Valid = true ∧
                  ∃ q ∈ p.2.Routes, ∃ entry ∈ q.2.BackendRefs.ByRule, entry.2 = grp :=
                horigin
              exact hnamecov _ _ (valid_backend_name_emitted gw.Listeners hres' grp
                horigin2 b hb hbv)
            · rw [if_neg hbv]
              exact hinv _

/-- A small graph for the C2 witness: one valid HTTP listener whose single
route carries resolver output (scenario S4 backend refs). -/
def c2Graph : state.Graph :=
  { GatewayClass := some { Valid := true }
    Gateway := some { Listeners := [
      ("l80", { Source := { Hostname := none, Protocol := v1beta1.ProtocolType.HTTP }
                Valid := true
                Routes := [({ Namespace := "test", Name := "hr" },
                  { Source := c5Route
                    BackendRefs := state.resolveBackendRefsForRoute c5Services
                      c5Resolve c5Route })]
                AcceptedHostnames := ["foo.example.com"]
                SecretPath := "" })] } }

/-- Witness for C2 on the concrete graph: the invalid-backend sentinel is
among the emitted upstream names. -/
theorem C2_no_dangling_references_witness :
    config.invalidBackendRef ∈
      (config.createUpstreams (state.buildConfiguration c2Graph).Upstreams).map
        http.Upstream.Name := by
  refine (C2_no_dangling_references c2Graph ?_).1
  intro gw hgw p hp q hq
  simp only [c2Graph] at hgw
  injection hgw with hgw
  subst hgw
  simp only [List.mem_singleton] at hp
  subst hp
  simp only [List.mem_singleton] at hq
  subst hq
  exact ⟨c5Services, c5Resolve, rfl⟩
